import Mathlib

/-!
Shallow embedding of `src/lex.c`, the fastd configuration-file lexer.

Bytes are modelled as `Nat` (real inputs have values < 256).  The `FILE`
stream is modelled as the list of bytes it will still deliver plus an
error flag `ferr`: `fread` hands out bytes from `file`, and once the
stream is exhausted `ferror` reports `ferr` (a stream whose read fails
stops delivering data and has its error indicator set).  The 1024-byte
buffer array is modelled as a total function `Nat → Nat`; the embedded
code only ever reads cells the C code reads.

The token constants `TOK_*` come from the generated parser header,
which is not part of this repository; only their distinctness and being
distinct from single-character tokens and from `0`/`-1` matter, so they
are assigned consecutive values starting at 258 (as bison does).

Looping constructs are embedded as fuel-indexed structural recursions
returning `Option` (`none` = fuel exhausted); the top-level entry point
supplies fuel that dominates the number of loop steps of any real run.
-/

def TOK_STRING : Int := 258
def TOK_UINT : Int := 259
def TOK_ADDR4 : Int := 260
def TOK_ADDR6 : Int := 261
def TOK_ADDRESSES : Int := 262
def TOK_ANY : Int := 263
def TOK_AS : Int := 264
def TOK_AUTO : Int := 265
def TOK_BIND : Int := 266
def TOK_CAPABILITIES : Int := 267
def TOK_CRYPTO : Int := 268
def TOK_DEBUG : Int := 269
def TOK_DEFAULT : Int := 270
def TOK_DISESTABLISH : Int := 271
def TOK_DOWN : Int := 272
def TOK_DROP : Int := 273
def TOK_EARLY : Int := 274
def TOK_ERROR : Int := 275
def TOK_ESTABLISH : Int := 276
def TOK_FATAL : Int := 277
def TOK_FLOAT : Int := 278
def TOK_FORWARD : Int := 279
def TOK_FROM : Int := 280
def TOK_GROUP : Int := 281
def TOK_HIDE : Int := 282
def TOK_INCLUDE : Int := 283
def TOK_INFO : Int := 284
def TOK_INTERFACE : Int := 285
def TOK_IP : Int := 286
def TOK_IPV4 : Int := 287
def TOK_IPV6 : Int := 288
def TOK_KEY : Int := 289
def TOK_LEVEL : Int := 290
def TOK_LIMIT : Int := 291
def TOK_LOG : Int := 292
def TOK_MAC : Int := 293
def TOK_METHOD : Int := 294
def TOK_MODE : Int := 295
def TOK_MTU : Int := 296
def TOK_NO : Int := 297
def TOK_ON : Int := 298
def TOK_PEER : Int := 299
def TOK_PEERS : Int := 300
def TOK_PMTU : Int := 301
def TOK_PORT : Int := 302
def TOK_POST_DOWN : Int := 303
def TOK_PRE_UP : Int := 304
def TOK_PROTOCOL : Int := 305
def TOK_REMOTE : Int := 306
def TOK_SECRET : Int := 307
def TOK_STDERR : Int := 308
def TOK_SYSLOG : Int := 309
def TOK_TAP : Int := 310
def TOK_TO : Int := 311
def TOK_TUN : Int := 312
def TOK_UP : Int := 313
def TOK_USE : Int := 314
def TOK_USER : Int := 315
def TOK_VERBOSE : Int := 316
def TOK_VERIFY : Int := 317
def TOK_WARN : Int := 318
def TOK_YES : Int := 319

/-- `sizeof(lex->buffer)` in `struct fastd_lex`. -/
def CAPACITY : Nat := 1024

/-- `struct fastd_lex` together with the modelled stream (`file`, `ferr`).
`end` is a Lean keyword, so the field is named `end_`. -/
structure fastd_lex_t where
  file : List Nat
  ferr : Bool
  needspace : Bool
  start : Nat
  end_ : Nat
  tok_len : Nat
  buffer : Nat → Nat

/-- Bison location record used by the lexer (`first_*` captured at token
start, `last_*` advanced per consumed byte). -/
structure YYLTYPE where
  first_line : Nat
  first_column : Nat
  last_line : Nat
  last_column : Nat
deriving DecidableEq

/-- The semantic-value union of the generated parser, flattened into a
record: `error` message, decoded `str` bytes, `uint64`, and the two
binary addresses. -/
structure YYSTYPE where
  error : String
  str : List Nat
  uint64 : Nat
  addr4 : List Nat
  addr6 : List Nat
deriving DecidableEq

/-- `advance`: compact the window (discard bytes before `start`), then
`fread` into the freed tail space; returns whether anything was read
(`l` as a boolean).  `fread` reading zero bytes writes nothing. -/
def advance (lex : fastd_lex_t) : Bool × fastd_lex_t :=
  let lex :=
    if lex.start > 0 then
      { lex with
        buffer := fun i => if i < lex.end_ - lex.start then lex.buffer (lex.start + i) else lex.buffer i,
        end_ := lex.end_ - lex.start,
        start := 0 }
    else lex
  if lex.end_ = CAPACITY then (false, lex)
  else
    let l := min (CAPACITY - lex.end_) lex.file.length
    if l = 0 then (false, lex)
    else
      (true,
        { lex with
          buffer := fun i => if lex.end_ ≤ i ∧ i < lex.end_ + l then lex.file.getD (i - lex.end_) 0 else lex.buffer i,
          end_ := lex.end_ + l,
          file := lex.file.drop l })

/-- `current`: the byte at the lookahead cursor. -/
def current (lex : fastd_lex_t) : Nat :=
  lex.buffer (lex.start + lex.tok_len)

/-- `get_token`: `strndup(lex->buffer+lex->start, lex->tok_len)` —
at most `tok_len` bytes, stopping at a NUL byte. -/
def get_token (lex : fastd_lex_t) : List Nat :=
  (((List.range lex.tok_len).map fun i => lex.buffer (lex.start + i)).takeWhile fun b => b ≠ 0)

/-- `next`: pass over the byte at the cursor, updating the location;
`move` commits it (advances `start`), otherwise lookahead (`tok_len`)
grows.  Refills transparently when the cursor reaches the window end. -/
def next (yylloc : YYLTYPE) (lex : fastd_lex_t) (move : Bool) : Bool × YYLTYPE × fastd_lex_t :=
  if lex.start + lex.tok_len ≥ lex.end_ then (false, yylloc, lex)
  else
    let yylloc :=
      if current lex = 10 then
        { yylloc with last_column := 0, last_line := yylloc.last_line + 1 }
      else
        { yylloc with last_column := yylloc.last_column + 1 }
    let lex :=
      if move then { lex with start := lex.start + 1 }
      else { lex with tok_len := lex.tok_len + 1 }
    if lex.start + lex.tok_len ≥ lex.end_ then
      let r := advance lex
      (r.1, yylloc, r.2)
    else (true, yylloc, lex)

/-- `consume`: fold the lookahead into the consumed prefix and record
whether a separator is now required. -/
def consume (lex : fastd_lex_t) (needspace : Bool) : fastd_lex_t :=
  { lex with start := lex.start + lex.tok_len, tok_len := 0, needspace := needspace }

/-- `syntax_error`: sets the error message, returns -1. -/
def syntax_error (yylval : YYSTYPE) : Int × YYSTYPE :=
  (-1, { yylval with error := "syntax error" })

/-- `io_error`: sets the error message, returns -1. -/
def io_error (yylval : YYSTYPE) : Int × YYSTYPE :=
  (-1, { yylval with error := "I/O error" })

/-- `end`: clean end of input unless the stream reports an error
(`end` is a Lean keyword, hence the name). -/
def end_of_input (yylval : YYSTYPE) (lex : fastd_lex_t) : Int × YYSTYPE :=
  if lex.ferr then io_error yylval else (0, yylval)

/-- `unterminated_string`: I/O error takes precedence. -/
def unterminated_string (yylval : YYSTYPE) (lex : fastd_lex_t) : Int × YYSTYPE :=
  if lex.ferr then io_error yylval
  else (-1, { yylval with error := "unterminated string" })

/-- `strcmp` on NUL-terminated byte strings; list end acts as the NUL. -/
def strcmp : List Nat → List Nat → Int
  | [], [] => 0
  | [], b :: _ => 0 - (b : Int)
  | a :: _, [] => (a : Int)
  | a :: xs, b :: ys =>
    if a ≠ b then (a : Int) - (b : Int)
    else if a = 0 then 0 else strcmp xs ys

/-- glibc `bsearch` on a sorted array, with an explicit fuel bound on
the iteration count (`arr.length + 1` always suffices). -/
def bsearchAux (key : List Nat) (arr : List (List Nat × Int)) : Nat → Nat → Nat → Option (List Nat × Int)
  | 0, _, _ => none
  | _ + 1, _, 0 => none
  | fuel + 1, base, nmemb' + 1 =>
    let nmemb := nmemb' + 1
    let idx := nmemb / 2
    match arr.get? (base + idx) with
    | none => none
    | some e =>
      let c := strcmp key e.1
      if c = 0 then some e
      else if c > 0 then bsearchAux key arr fuel (base + idx + 1) (nmemb - idx - 1)
      else bsearchAux key arr fuel base idx

def bsearchKeywords (key : List Nat) (arr : List (List Nat × Int)) : Option (List Nat × Int) :=
  bsearchAux key arr (arr.length + 1) 0 arr.length

/-- Keyword text as a byte list. -/
def kw (s : String) (t : Int) : List Nat × Int :=
  (s.toList.map Char.toNat, t)

/-- The static keyword table (`keywords[]` in `lex.c`, same order). -/
def keywords : List (List Nat × Int) :=
  [ kw ("addresses") TOK_ADDRESSES,
    kw ("any") TOK_ANY,
    kw ("as") TOK_AS,
    kw ("auto") TOK_AUTO,
    kw ("bind") TOK_BIND,
    kw ("capabilities") TOK_CAPABILITIES,
    kw ("crypto") TOK_CRYPTO,
    kw ("debug") TOK_DEBUG,
    kw ("default") TOK_DEFAULT,
    kw ("disestablish") TOK_DISESTABLISH,
    kw ("down") TOK_DOWN,
    kw ("drop") TOK_DROP,
    kw ("early") TOK_EARLY,
    kw ("error") TOK_ERROR,
    kw ("establish") TOK_ESTABLISH,
    kw ("fatal") TOK_FATAL,
    kw ("float") TOK_FLOAT,
    kw ("forward") TOK_FORWARD,
    kw ("from") TOK_FROM,
    kw ("group") TOK_GROUP,
    kw ("hide") TOK_HIDE,
    kw ("include") TOK_INCLUDE,
    kw ("info") TOK_INFO,
    kw ("interface") TOK_INTERFACE,
    kw ("ip") TOK_IP,
    kw ("ipv4") TOK_IPV4,
    kw ("ipv6") TOK_IPV6,
    kw ("key") TOK_KEY,
    kw ("level") TOK_LEVEL,
    kw ("limit") TOK_LIMIT,
    kw ("log") TOK_LOG,
    kw ("mac") TOK_MAC,
    kw ("method") TOK_METHOD,
    kw ("mode") TOK_MODE,
    kw ("mtu") TOK_MTU,
    kw ("no") TOK_NO,
    kw ("on") TOK_ON,
    kw ("peer") TOK_PEER,
    kw ("peers") TOK_PEERS,
    kw ("pmtu") TOK_PMTU,
    kw ("port") TOK_PORT,
    kw ("post-down") TOK_POST_DOWN,
    kw ("pre-up") TOK_PRE_UP,
    kw ("protocol") TOK_PROTOCOL,
    kw ("remote") TOK_REMOTE,
    kw ("secret") TOK_SECRET,
    kw ("stderr") TOK_STDERR,
    kw ("syslog") TOK_SYSLOG,
    kw ("tap") TOK_TAP,
    kw ("to") TOK_TO,
    kw ("tun") TOK_TUN,
    kw ("up") TOK_UP,
    kw ("use") TOK_USE,
    kw ("user") TOK_USER,
    kw ("verbose") TOK_VERBOSE,
    kw ("verify") TOK_VERIFY,
    kw ("warn") TOK_WARN,
    kw ("yes") TOK_YES ]

/-- `strtoull(token, &endptr, 10)` on a NUL-free byte string: the parsed
value (clamped to `ULLONG_MAX` on overflow) and the unparsed rest
(`endptr`).  The leading-whitespace/sign handling of `strtoull` is
irrelevant here: every call site passes a pure digit run. -/
def strtoull10 (s : List Nat) : Nat × List Nat :=
  let digits := s.takeWhile fun c => 48 ≤ c && c ≤ 57
  let v := digits.foldl (fun a c => a * 10 + (c - 48)) 0
  ((if v ≥ 2 ^ 64 then 2 ^ 64 - 1 else v), s.drop digits.length)

/-- `inet_pton(AF_INET, ...)` (glibc `inet_pton4`): strict dotted quad,
four octets `0..255`, no superfluous leading zeros.
State: completed octets, current octet value, octet count, `saw_digit`. -/
def inet_pton4Loop : List Nat → List Nat → Nat → Nat → Bool → Option (List Nat)
  | [], acc, cur, octets, saw =>
    if octets < 4 ∨ ¬saw then none else some (acc ++ [cur])
  | c :: rest, acc, cur, octets, saw =>
    if 48 ≤ c ∧ c ≤ 57 then
      let d := c - 48
      if saw ∧ cur = 0 then none
      else
        let new := cur * 10 + d
        if new > 255 then none
        else if saw then inet_pton4Loop rest acc new octets true
        else if octets + 1 > 4 then none
        else inet_pton4Loop rest acc new (octets + 1) true
    else if c = 46 ∧ saw then
      if octets = 4 then none
      else inet_pton4Loop rest (acc ++ [cur]) 0 octets false
    else none

def inet_pton4 (src : List Nat) : Option (List Nat) :=
  inet_pton4Loop src [] 0 0 false

/-- Hexadecimal digit value, as `inet_pton6` accepts it. -/
def hexDigitVal (c : Nat) : Option Nat :=
  if 48 ≤ c ∧ c ≤ 57 then some (c - 48)
  else if 97 ≤ c ∧ c ≤ 102 then some (c - 97 + 10)
  else if 65 ≤ c ∧ c ≤ 70 then some (c - 65 + 10)
  else none

/-- Main loop of glibc `inet_pton6`.  State: bytes emitted so far (`tp`),
position of `::` if seen (`colonp`), `saw_xdigit`, current group value.
The embedded-IPv4 branch (a `.` inside the literal) is omitted: the
scanner in `lex.c` only ever passes strings of decimal digits and `:`,
so that branch is unreachable from the embedded code; a `.` (like any
other non-hex-digit byte) fails. -/
def inet_pton6Loop : List Nat → List Nat → Option Nat → Bool → Nat → Option (List Nat × Option Nat × Bool × Nat)
  | [], tp, colonp, saw, val => some (tp, colonp, saw, val)
  | c :: rest, tp, colonp, saw, val =>
    match hexDigitVal c with
    | some d =>
      let val := val * 16 + d
      if val > 65535 then none
      else inet_pton6Loop rest tp colonp true val
    | none =>
      if c = 58 then
        if ¬saw then
          if colonp.isSome then none
          else inet_pton6Loop rest tp (some tp.length) false val
        else if rest = [] then none
        else if tp.length + 2 > 16 then none
        else inet_pton6Loop rest (tp ++ [val / 256, val % 256]) colonp false 0
      else none

/-- `inet_pton(AF_INET6, ...)`: standard IPv6 textual decoding into
16 bytes. -/
def inet_pton6 (src : List Nat) : Option (List Nat) :=
  let pre : Option (List Nat) :=
    match src with
    | 58 :: rest =>
      match rest with
      | 58 :: _ => some rest
      | _ => none
    | _ => some src
  match pre with
  | none => none
  | some src' =>
    match inet_pton6Loop src' [] none false 0 with
    | none => none
    | some (tp, colonp, saw, val) =>
      let tp' := if saw then (if tp.length + 2 > 16 then none else some (tp ++ [val / 256, val % 256])) else some tp
      match tp' with
      | none => none
      | some tp =>
        match colonp with
        | some p =>
          if tp.length = 16 then none
          else some (tp.take p ++ List.replicate (16 - tp.length) 0 ++ tp.drop p)
        | none => if tp.length = 16 then some tp else none

/-- Reads the NUL-terminated C string stored in the buffer starting at
`i`.  The read is bounded by the buffer extent; every reachable call
has a NUL within it. -/
def readCString (buf : Nat → Nat) (i : Nat) : List Nat :=
  (((List.range CAPACITY).map fun k => buf (i + k)).takeWhile fun b => b ≠ 0)

/-- Result quadruple of a token-pull step: token code, `yylval`,
`yylloc`, lexer state. -/
def LexResult := Int × YYSTYPE × YYLTYPE × fastd_lex_t

/-- Loop of `consume_comment`: scan (committing) until `*/`. -/
def consume_comment_loop : Nat → YYSTYPE → YYLTYPE → fastd_lex_t → Nat → Option LexResult
  | 0, _, _, _, _ => none
  | fuel + 1, yylval, yylloc, lex, prev =>
    match next yylloc lex true with
    | (false, yylloc, lex) =>
      if lex.ferr then some ((io_error yylval).1, (io_error yylval).2, yylloc, lex)
      else some (-1, { yylval with error := "unterminated block comment" }, yylloc, lex)
    | (true, yylloc, lex) =>
      if prev = 42 ∧ current lex = 47 then
        let r := next yylloc lex true
        some (0, yylval, r.2.1, consume r.2.2 false)
      else consume_comment_loop fuel yylval yylloc lex (current lex)

/-- `consume_comment`: body of a `/* ... */` comment; returns token 0 on
success. -/
def consume_comment (fuel : Nat) (yylval : YYSTYPE) (yylloc : YYLTYPE) (lex : fastd_lex_t) : Option LexResult :=
  consume_comment_loop fuel yylval yylloc lex 0

/-- Loop of `parse_string`: each step commits the byte at the cursor and
examines the byte now under the cursor; `buf`/`pos` of the C code are
the accumulator list. -/
def parse_string_loop : Nat → List Nat → YYSTYPE → YYLTYPE → fastd_lex_t → Option LexResult
  | 0, _, _, _, _ => none
  | fuel + 1, buf, yylval, yylloc, lex =>
    match next yylloc lex true with
    | (false, yylloc, lex) =>
      some ((unterminated_string yylval lex).1, (unterminated_string yylval lex).2, yylloc, lex)
    | (true, yylloc, lex) =>
      let cur := current lex
      if cur = 34 then
        -- Modelled from the spec: `fastd_string_stack_dupn(buf, pos)` is
        -- not under src/; per the spec the STRING payload is exactly the
        -- `pos` decoded bytes accumulated in `buf`.
        let yylval := { yylval with str := buf }
        let r := next yylloc lex true
        some (TOK_STRING, yylval, r.2.1, consume r.2.2 true)
      else if cur = 92 then
        match next yylloc lex true with
        | (false, yylloc, lex) =>
          some ((unterminated_string yylval lex).1, (unterminated_string yylval lex).2, yylloc, lex)
        | (true, yylloc, lex) =>
          let cur := current lex
          if cur = 10 then parse_string_loop fuel buf yylval yylloc lex
          else parse_string_loop fuel (buf ++ [cur]) yylval yylloc lex
      else parse_string_loop fuel (buf ++ [cur]) yylval yylloc lex

/-- `parse_string`: string literal scanner. -/
def parse_string (fuel : Nat) (yylval : YYSTYPE) (yylloc : YYLTYPE) (lex : fastd_lex_t) : Option LexResult :=
  if lex.needspace then some ((syntax_error yylval).1, (syntax_error yylval).2, yylloc, lex)
  else parse_string_loop fuel [] yylval yylloc lex

/-- Lookahead loop of `parse_ipv6_address`: extend over decimal digits
and `:` until some other byte is under the cursor. -/
def scan6_loop : Nat → YYLTYPE → fastd_lex_t → Option (YYLTYPE × fastd_lex_t)
  | 0, _, _ => none
  | fuel + 1, yylloc, lex =>
    match next yylloc lex false with
    | (false, yylloc, lex) => some (yylloc, lex)
    | (true, yylloc, lex) =>
      let cur := current lex
      if (48 ≤ cur ∧ cur ≤ 57) ∨ cur = 58 then scan6_loop fuel yylloc lex
      else some (yylloc, lex)

/-- `parse_ipv6_address`: bracketed IPv6 literal scanner.  On a `]`
terminator a NUL is written over it and the text between the brackets
is handed to `inet_pton(AF_INET6, ...)`. -/
def parse_ipv6_address (fuel : Nat) (yylval : YYSTYPE) (yylloc : YYLTYPE) (lex : fastd_lex_t) : Option LexResult :=
  if lex.needspace then some ((syntax_error yylval).1, (syntax_error yylval).2, yylloc, lex)
  else
    match scan6_loop fuel yylloc lex with
    | none => none
    | some (yylloc, lex) =>
      if current lex = 93 then
        let lex := { lex with buffer := fun i => if i = lex.start + lex.tok_len then 0 else lex.buffer i }
        match inet_pton6 (readCString lex.buffer (lex.start + 1)) with
        | some a =>
          let yylval := { yylval with addr6 := a }
          let r := next yylloc lex true
          some (TOK_ADDR6, yylval, r.2.1, consume r.2.2 true)
        | none => some (-1, { yylval with error := "invalid address" }, yylloc, lex)
      else some (-1, { yylval with error := "invalid address" }, yylloc, lex)

/-- Lookahead loop of `parse_ipv4_address`: extend over digits and `.`. -/
def scan4_loop : Nat → YYLTYPE → fastd_lex_t → Option (YYLTYPE × fastd_lex_t)
  | 0, _, _ => none
  | fuel + 1, yylloc, lex =>
    match next yylloc lex false with
    | (false, yylloc, lex) => some (yylloc, lex)
    | (true, yylloc, lex) =>
      let cur := current lex
      if (48 ≤ cur ∧ cur ≤ 57) ∨ cur = 46 then scan4_loop fuel yylloc lex
      else some (yylloc, lex)

/-- `parse_ipv4_address`: dotted-quad sub-scanner (reached from
`parse_number`).  Note: returns without `consume` on success. -/
def parse_ipv4_address (fuel : Nat) (yylval : YYSTYPE) (yylloc : YYLTYPE) (lex : fastd_lex_t) : Option LexResult :=
  if lex.needspace then some ((syntax_error yylval).1, (syntax_error yylval).2, yylloc, lex)
  else
    match scan4_loop fuel yylloc lex with
    | none => none
    | some (yylloc, lex) =>
      let token := get_token lex
      match inet_pton4 token with
      | some a => some (TOK_ADDR4, { yylval with addr4 := a }, yylloc, lex)
      | none => some (-1, { yylval with error := "invalid address" }, yylloc, lex)

/-- Lookahead loop of `parse_number`: extend over digits; a `.` under
the cursor transfers control to the IPv4 sub-scanner (`true` flag). -/
def scan_num_loop : Nat → YYLTYPE → fastd_lex_t → Option (Bool × YYLTYPE × fastd_lex_t)
  | 0, _, _ => none
  | fuel + 1, yylloc, lex =>
    match next yylloc lex false with
    | (false, yylloc, lex) => some (false, yylloc, lex)
    | (true, yylloc, lex) =>
      let cur := current lex
      if cur = 46 then some (true, yylloc, lex)
      else if 48 ≤ cur ∧ cur ≤ 57 then scan_num_loop fuel yylloc lex
      else some (false, yylloc, lex)

/-- `parse_number`: unsigned integer scanner (with the dotted-quad mode
switch).  Note: returns without `consume` on the UINT path. -/
def parse_number (fuel : Nat) (yylval : YYSTYPE) (yylloc : YYLTYPE) (lex : fastd_lex_t) : Option LexResult :=
  if lex.needspace then some ((syntax_error yylval).1, (syntax_error yylval).2, yylloc, lex)
  else
    match scan_num_loop fuel yylloc lex with
    | none => none
    | some (true, yylloc, lex) => parse_ipv4_address fuel yylval yylloc lex
    | some (false, yylloc, lex) =>
      let token := get_token lex
      let r := strtoull10 token
      let yylval := { yylval with uint64 := r.1 }
      if r.2 = [] then some (TOK_UINT, yylval, yylloc, lex)
      else some (-1, { yylval with error := "invalid integer constant" }, yylloc, lex)

/-- Lookahead loop of `parse_keyword`: extend over `[a-z0-9-]`. -/
def scan_kw_loop : Nat → YYLTYPE → fastd_lex_t → Option (YYLTYPE × fastd_lex_t)
  | 0, _, _ => none
  | fuel + 1, yylloc, lex =>
    match next yylloc lex false with
    | (false, yylloc, lex) => some (yylloc, lex)
    | (true, yylloc, lex) =>
      let cur := current lex
      if (97 ≤ cur ∧ cur ≤ 122) ∨ (48 ≤ cur ∧ cur ≤ 57) ∨ cur = 45 then scan_kw_loop fuel yylloc lex
      else some (yylloc, lex)

/-- `parse_keyword`: identifier-shaped text looked up in the sorted
keyword table via binary search. -/
def parse_keyword (fuel : Nat) (yylval : YYSTYPE) (yylloc : YYLTYPE) (lex : fastd_lex_t) : Option LexResult :=
  if lex.needspace then some ((syntax_error yylval).1, (syntax_error yylval).2, yylloc, lex)
  else
    match scan_kw_loop fuel yylloc lex with
    | none => none
    | some (yylloc, lex) =>
      let token := get_token lex
      match bsearchKeywords token keywords with
      | none => some ((syntax_error yylval).1, (syntax_error yylval).2, yylloc, lex)
      | some e => some (e.2, yylval, yylloc, consume lex true)

/-- Line-comment loop shared by `#` and `//`: commit bytes until a
newline is under the cursor (or input ends). -/
def line_comment_loop : Nat → YYLTYPE → fastd_lex_t → Option (YYLTYPE × fastd_lex_t)
  | 0, _, _ => none
  | fuel + 1, yylloc, lex =>
    match next yylloc lex true with
    | (false, yylloc, lex) => some (yylloc, lex)
    | (true, yylloc, lex) =>
      if current lex = 10 then some (yylloc, lex)
      else line_comment_loop fuel yylloc lex

/-- `fastd_lex`: the dispatcher (token-pull entry point), fuel-indexed. -/
def fastd_lexF : Nat → YYSTYPE → YYLTYPE → fastd_lex_t → Option LexResult
  | 0, _, _, _ => none
  | fuel + 1, yylval, yylloc, lex =>
    if lex.end_ > lex.start then
      let yylloc := { yylloc with first_line := yylloc.last_line, first_column := yylloc.last_column + 1 }
      let c := current lex
      if c = 32 ∨ c = 10 ∨ c = 9 ∨ c = 13 then
        let r := next yylloc lex true
        fastd_lexF fuel yylval r.2.1 (consume r.2.2 false)
      else if c = 59 ∨ c = 58 ∨ c = 123 ∨ c = 125 then
        let r := next yylloc lex true
        some ((c : Int), yylval, r.2.1, consume r.2.2 false)
      else if c = 47 then
        match next yylloc lex true with
        | (false, yylloc, lex) =>
          some ((syntax_error yylval).1, (syntax_error yylval).2, yylloc, lex)
        | (true, yylloc, lex) =>
          if current lex = 42 then
            match consume_comment fuel yylval yylloc lex with
            | none => none
            | some (t, yylval, yylloc, lex) =>
              if t ≠ 0 then some (t, yylval, yylloc, lex)
              else fastd_lexF fuel yylval yylloc lex
          else if current lex ≠ 47 then
            some ((syntax_error yylval).1, (syntax_error yylval).2, yylloc, lex)
          else
            match line_comment_loop fuel yylloc lex with
            | none => none
            | some (yylloc, lex) =>
              let r := next yylloc lex true
              fastd_lexF fuel yylval r.2.1 (consume r.2.2 false)
      else if c = 35 then
        match line_comment_loop fuel yylloc lex with
        | none => none
        | some (yylloc, lex) =>
          let r := next yylloc lex true
          fastd_lexF fuel yylval r.2.1 (consume r.2.2 false)
      else if c = 34 then parse_string fuel yylval yylloc lex
      else if c = 91 then parse_ipv6_address fuel yylval yylloc lex
      else if 48 ≤ c ∧ c ≤ 57 then parse_number fuel yylval yylloc lex
      else if 97 ≤ c ∧ c ≤ 122 then parse_keyword fuel yylval yylloc lex
      else some ((syntax_error yylval).1, (syntax_error yylval).2, yylloc, lex)
    else
      some ((end_of_input yylval lex).1, (end_of_input yylval lex).2, yylloc, lex)

/-- Fuel that dominates the step count of any single token pull: every
loop iteration either consumes a byte of the remaining input
(`file.length + end_ - start - tok_len` shrinks) or is one of a
bounded number of bookkeeping steps. -/
def lexFuel (lex : fastd_lex_t) : Nat :=
  lex.file.length + lex.end_ + 2048

/-- `fastd_lex` with its fuel supplied: the token-pull operation. -/
def fastd_lex (yylval : YYSTYPE) (yylloc : YYLTYPE) (lex : fastd_lex_t) : Option LexResult :=
  fastd_lexF (lexFuel lex) yylval yylloc lex

/-- `fastd_lex_init`: zero-initialised state bound to the stream, with
one initial `advance`. -/
def fastd_lex_init (file : List Nat) (ferr : Bool) : fastd_lex_t :=
  let lex : fastd_lex_t :=
    { file := file, ferr := ferr, needspace := false, start := 0, end_ := 0, tok_len := 0, buffer := fun _ => 0 }
  (advance lex).2

/-- Zero/neutral semantic value, as the parser provides it. -/
def yv0 : YYSTYPE := { error := "", str := [], uint64 := 0, addr4 := [], addr6 := [] }

/-- Initial location record (line 1, column 0). -/
def yl0 : YYLTYPE := { first_line := 1, first_column := 0, last_line := 1, last_column := 0 }

/-- One token pull on a fresh lexer over the given input. -/
def lexOnce (bytes : List Nat) : Option LexResult :=
  fastd_lex yv0 yl0 (fastd_lex_init bytes false)

/-- Two token pulls on a fresh lexer over the given input. -/
def lexTwice (bytes : List Nat) : Option LexResult :=
  (lexOnce bytes).bind fun r => fastd_lex r.2.1 r.2.2.1 r.2.2.2

/-- One token pull on a fresh lexer over a stream that enters the error
state once its bytes are exhausted. -/
def lexOnceErr (bytes : List Nat) : Option LexResult :=
  fastd_lex yv0 yl0 (fastd_lex_init bytes true)

/-- The unread bytes of the lookahead window from the cursor on. -/
def windowBytes (lex : fastd_lex_t) : List Nat :=
  ((List.range (lex.end_ - (lex.start + lex.tok_len))).map fun i => lex.buffer (lex.start + lex.tok_len + i))

/-- All input the lexer has not yet passed over: the window from the
cursor on, then the bytes still in the stream. -/
def rest (lex : fastd_lex_t) : List Nat :=
  windowBytes lex ++ lex.file

/-- The buffer-window invariant of the spec:
`start ≤ start + tok_len ≤ end ≤ capacity`. -/
def lexInv (lex : fastd_lex_t) : Prop :=
  lex.start ≤ lex.start + lex.tok_len ∧ lex.start + lex.tok_len ≤ lex.end_ ∧ lex.end_ ≤ CAPACITY

/-- States reachable with no uncommitted lookahead (`tok_len = 0`), as
maintained by the committing (`move = true`) scan of the string scanner. -/
def P4 (lex : fastd_lex_t) : Prop :=
  lex.tok_len = 0 ∧ lex.start ≤ lex.end_ ∧ lex.end_ ≤ CAPACITY ∧ (lex.start < lex.end_ ∨ lex.file = [])

/-- Freshly initialised window: nothing consumed yet, and every refill
attempt is a no-op (stream drained into the window, or window full). -/
def Fresh (lex : fastd_lex_t) : Prop :=
  lex.start = 0 ∧ lex.end_ ≤ CAPACITY ∧ (lex.file = [] ∨ lex.end_ = CAPACITY)

/-- Reference description of the string scanner's loop on the byte
stream after the opening quote: returns the decoded bytes and the
stream after the closing quote, or `none` for an unterminated literal. -/
def scanStr : List Nat → Option (List Nat × List Nat)
  | [] => none
  | c :: r =>
    if c = 34 then some ([], r)
    else if c = 92 then
      match r with
      | [] => none
      | c2 :: r2 =>
        if c2 = 10 then scanStr r2
        else (scanStr r2).map fun p => (c2 :: p.1, p.2)
    else (scanStr r).map fun p => (c :: p.1, p.2)

/-- The quoted-and-escaped form of a byte sequence: `"` and `\` get a
backslash prefix, all other bytes are left as they are. -/
def escapeStr (s : List Nat) : List Nat :=
  s.flatMap fun b => if b = 34 ∨ b = 92 then [92, b] else [b]

/-- The decimal text of `n`, as bytes. -/
def decimalBytes (n : Nat) : List Nat :=
  if n = 0 then [48] else ((Nat.digits 10 n).reverse.map fun d => d + 48)

/-- Boolean check that adjacent table entries are strictly increasing
under `strcmp`. -/
def sortedChain : List (List Nat × Int) → Bool
  | [] => true
  | [_] => true
  | a :: b :: rst => decide (strcmp a.1 b.1 < 0) && sortedChain (b :: rst)

/-- The character class `[a-z0-9-]` of the keyword scanner. -/
def kwClassP (b : Nat) : Prop :=
  (97 ≤ b ∧ b ≤ 122) ∨ (48 ≤ b ∧ b ≤ 57) ∨ b = 45

/-- Bytes on which the dispatcher routes to a word-like scanner
(string, IPv6, number, keyword). -/
def wordlikeByte (c : Nat) : Prop :=
  c = 34 ∨ c = 91 ∨ (48 ≤ c ∧ c ≤ 57) ∨ (97 ≤ c ∧ c ≤ 122)

/-! ### List-level helper lemmas -/

theorem range_map_getD (l : List Nat) (n : Nat) (h : n ≤ l.length) :
    ((List.range n).map fun i => l.getD i 0) = l.take n := by
  apply List.ext_getElem
  · simp
    omega
  · intro i h1 h2
    simp only [List.getElem_map, List.getElem_range, List.getElem_take]
    have hi : i < l.length := by
      simp at h1
      omega
    rw [List.getD_eq_getElem?_getD, List.getElem?_eq_getElem hi]
    rfl

theorem takeWhile_of_all (l : List Nat) (h : ∀ b ∈ l, b ≠ 0) :
    (l.takeWhile fun b => b ≠ 0) = l := by
  induction l with
  | nil => rfl
  | cons a t ih =>
    have ha : a ≠ 0 := h a (List.mem_cons_self a t)
    rw [List.takeWhile_cons_of_pos (by simpa using ha),
      ih fun b hb => h b (List.mem_cons_of_mem a hb)]

/-! ### Characterisation of `fastd_lex_init` -/

theorem fastd_lex_init_spec (bytes : List Nat) (e : Bool) :
    (fastd_lex_init bytes e).file = bytes.drop (min CAPACITY bytes.length) ∧
    (fastd_lex_init bytes e).ferr = e ∧
    (fastd_lex_init bytes e).needspace = false ∧
    (fastd_lex_init bytes e).start = 0 ∧
    (fastd_lex_init bytes e).end_ = min CAPACITY bytes.length ∧
    (fastd_lex_init bytes e).tok_len = 0 ∧
    ∀ i, i < min CAPACITY bytes.length → (fastd_lex_init bytes e).buffer i = bytes.getD i 0 := by
  unfold fastd_lex_init advance
  simp only [gt_iff_lt, Nat.lt_irrefl, if_false, Nat.sub_zero]
  have hcap : (0 : Nat) ≠ CAPACITY := by simp [CAPACITY]
  rw [if_neg hcap]
  by_cases h0 : min CAPACITY bytes.length = 0
  · simp [h0]
  · rw [if_neg h0]
    refine ⟨rfl, rfl, rfl, rfl, by simp, rfl, ?_⟩
    intro i hi
    show (if 0 ≤ i ∧ i < 0 + min CAPACITY bytes.length then bytes.getD (i - 0) 0 else 0) = bytes.getD i 0
    rw [if_pos ⟨by omega, by omega⟩, Nat.sub_zero]

theorem init_Fresh (bytes : List Nat) (e : Bool) : Fresh (fastd_lex_init bytes e) := by
  obtain ⟨hf, _, _, hs, he, _, _⟩ := fastd_lex_init_spec bytes e
  refine ⟨hs, by rw [he]; omega, ?_⟩
  by_cases h : bytes.length ≤ CAPACITY
  · left
    rw [hf, List.drop_eq_nil_iff]
    omega
  · right
    rw [he]
    omega

theorem init_P4 (bytes : List Nat) (e : Bool) : P4 (fastd_lex_init bytes e) := by
  obtain ⟨hf, _, _, hs, he, ht, _⟩ := fastd_lex_init_spec bytes e
  refine ⟨ht, by omega, by rw [he]; omega, ?_⟩
  by_cases h : bytes.length = 0
  · right
    rw [hf, List.drop_eq_nil_iff]
    omega
  · left
    rw [hs, he]
    simp [CAPACITY]
    omega

/-! ### Window and `rest` lemmas -/

theorem windowBytes_eq_nil (s : fastd_lex_t) (h : s.end_ ≤ s.start + s.tok_len) :
    windowBytes s = [] := by
  simp [windowBytes, Nat.sub_eq_zero_of_le h]

theorem windowBytes_cons (s : fastd_lex_t) (h : s.start + s.tok_len < s.end_) :
    windowBytes s = current s ::
      ((List.range (s.end_ - (s.start + s.tok_len) - 1)).map fun i => s.buffer (s.start + s.tok_len + 1 + i)) := by
  obtain ⟨k, hk⟩ : ∃ k, s.end_ - (s.start + s.tok_len) = k + 1 :=
    ⟨s.end_ - (s.start + s.tok_len) - 1, by omega⟩
  rw [windowBytes, hk, List.range_succ_eq_map, List.map_cons, List.map_map]
  refine congrArg₂ _ (by simp [current]) ?_
  simp only [Nat.add_sub_cancel]
  apply List.map_congr_left
  intro i _
  simp only [Function.comp_apply]
  congr 1
  omega

theorem windowBytes_shift (s s' : fastd_lex_t) (hbuf : s'.buffer = s.buffer)
    (he : s'.end_ = s.end_) (hc : s'.start + s'.tok_len = s.start + s.tok_len + 1) :
    windowBytes s' =
      ((List.range (s.end_ - (s.start + s.tok_len) - 1)).map fun i => s.buffer (s.start + s.tok_len + 1 + i)) := by
  rw [windowBytes, hbuf, he, hc]
  congr 1

theorem rest_head (s : fastd_lex_t) (c : Nat) (r : List Nat) (h4 : P4 s)
    (hr : rest s = c :: r) : s.start < s.end_ ∧ current s = c := by
  obtain ⟨ht, hse, _, hd⟩ := h4
  by_cases hlt : s.start < s.end_
  · refine ⟨hlt, ?_⟩
    have hw := windowBytes_cons s (by omega)
    rw [rest, hw] at hr
    simp at hr
    exact hr.1
  · exfalso
    have hwin : windowBytes s = [] := windowBytes_eq_nil s (by omega)
    have hfile : s.file = [] := by
      rcases hd with h | h
      · omega
      · exact h
    rw [rest, hwin, hfile] at hr
    simp at hr

theorem rest_nil_parts (s : fastd_lex_t) (h4 : P4 s) (hr : rest s = []) :
    s.end_ ≤ s.start ∧ s.file = [] := by
  obtain ⟨ht, _, _, _⟩ := h4
  rw [rest, List.append_eq_nil] at hr
  refine ⟨?_, hr.2⟩
  by_contra hlt
  have := windowBytes_cons s (by omega)
  rw [hr.1] at this
  exact List.noConfusion this

theorem rest_consume (s : fastd_lex_t) (b : Bool) : rest (consume s b) = rest s := by
  rw [rest, rest, consume, windowBytes, windowBytes]
  simp


theorem rest_init (bytes : List Nat) (e : Bool) : rest (fastd_lex_init bytes e) = bytes := by
  obtain ⟨hf, _, _, hs, he, ht, hb⟩ := fastd_lex_init_spec bytes e
  rw [rest, windowBytes, hs, ht, he, hf]
  have hmap : ((List.range (min CAPACITY bytes.length - (0 + 0))).map fun i => (fastd_lex_init bytes e).buffer (0 + 0 + i)) =
      ((List.range (min CAPACITY bytes.length)).map fun i => bytes.getD i 0) := by
    simp only [Nat.add_zero, Nat.zero_add, Nat.sub_zero]
    apply List.map_congr_left
    intro i hi
    exact hb i (List.mem_range.mp hi)
  rw [hmap, range_map_getD _ _ (Nat.min_le_right _ _)]
  exact List.take_append_drop _ _

/-! ### Simulation of `next` with `move = true` on `P4` states -/


theorem next_unfold_true (yl : YYLTYPE) (s : fastd_lex_t) (h : s.start + s.tok_len < s.end_) :
    next yl s true =
      (if s.start + 1 + s.tok_len ≥ s.end_
       then ((advance { s with start := s.start + 1 }).1,
             (if current s = 10 then { yl with last_column := 0, last_line := yl.last_line + 1 }
              else { yl with last_column := yl.last_column + 1 }),
             (advance { s with start := s.start + 1 }).2)
       else (true,
             (if current s = 10 then { yl with last_column := 0, last_line := yl.last_line + 1 }
              else { yl with last_column := yl.last_column + 1 }),
             { s with start := s.start + 1 })) := by
  have h1 : ¬ s.start + s.tok_len ≥ s.end_ := by omega
  rw [next, if_neg h1]
  rfl

theorem next_unfold_false (yl : YYLTYPE) (s : fastd_lex_t) (h : s.start + s.tok_len < s.end_) :
    next yl s false =
      (if s.start + (s.tok_len + 1) ≥ s.end_
       then ((advance { s with tok_len := s.tok_len + 1 }).1,
             (if current s = 10 then { yl with last_column := 0, last_line := yl.last_line + 1 }
              else { yl with last_column := yl.last_column + 1 }),
             (advance { s with tok_len := s.tok_len + 1 }).2)
       else (true,
             (if current s = 10 then { yl with last_column := 0, last_line := yl.last_line + 1 }
              else { yl with last_column := yl.last_column + 1 }),
             { s with tok_len := s.tok_len + 1 })) := by
  have h1 : ¬ s.start + s.tok_len ≥ s.end_ := by omega
  rw [next, if_neg h1]
  rfl

theorem next_miss (yl : YYLTYPE) (s : fastd_lex_t) (move : Bool) (h : s.start + s.tok_len ≥ s.end_) :
    next yl s move = (false, yl, s) := by
  rw [next, if_pos h]

theorem advance_unfold_shift (s : fastd_lex_t) (h : s.start > 0) :
    advance s =
      (if s.end_ - s.start = CAPACITY then
         (false, { s with
           buffer := fun i => if i < s.end_ - s.start then s.buffer (s.start + i) else s.buffer i,
           end_ := s.end_ - s.start, start := 0 })
       else if min (CAPACITY - (s.end_ - s.start)) s.file.length = 0 then
         (false, { s with
           buffer := fun i => if i < s.end_ - s.start then s.buffer (s.start + i) else s.buffer i,
           end_ := s.end_ - s.start, start := 0 })
       else
         (true, { s with
           buffer := fun i =>
             if s.end_ - s.start ≤ i ∧ i < s.end_ - s.start + min (CAPACITY - (s.end_ - s.start)) s.file.length then
               s.file.getD (i - (s.end_ - s.start)) 0
             else if i < s.end_ - s.start then s.buffer (s.start + i) else s.buffer i,
           end_ := s.end_ - s.start + min (CAPACITY - (s.end_ - s.start)) s.file.length,
           start := 0,
           file := s.file.drop (min (CAPACITY - (s.end_ - s.start)) s.file.length) })) := by
  rw [advance, if_pos h]

theorem advance_unfold_zero (s : fastd_lex_t) (h : s.start = 0) :
    advance s =
      (if s.end_ = CAPACITY then (false, s)
       else if min (CAPACITY - s.end_) s.file.length = 0 then (false, s)
       else
         (true, { s with
           buffer := fun i =>
             if s.end_ ≤ i ∧ i < s.end_ + min (CAPACITY - s.end_) s.file.length then
               s.file.getD (i - s.end_) 0
             else s.buffer i,
           end_ := s.end_ + min (CAPACITY - s.end_) s.file.length,
           file := s.file.drop (min (CAPACITY - s.end_) s.file.length) })) := by
  have h1 : ¬ s.start > 0 := by omega
  rw [advance, if_neg h1]

theorem next_nil_sim (yl : YYLTYPE) (s : fastd_lex_t) (h4 : P4 s) (hr : rest s = []) :
    next yl s true = (false, yl, s) := by
  obtain ⟨he, _⟩ := rest_nil_parts s h4 hr
  rw [next, if_pos (by omega)]

theorem next_one_sim (yl : YYLTYPE) (s : fastd_lex_t) (c : Nat) (h4 : P4 s) (hr : rest s = [c]) :
    ∃ yl' s', next yl s true = (false, yl', s') ∧ P4 s' ∧ rest s' = [] ∧
      s'.ferr = s.ferr ∧ s'.needspace = s.needspace ∧ s'.tok_len = 0 := by
  obtain ⟨hlt, _⟩ := rest_head s c [] h4 hr
  obtain ⟨ht, hse, hec, _⟩ := h4
  have hC : CAPACITY = 1024 := rfl
  have hw := windowBytes_cons s (by omega)
  rw [rest, hw] at hr
  simp only [List.cons_append, List.cons.injEq] at hr
  have htail : s.end_ - (s.start + s.tok_len) - 1 = 0 := by
    by_contra hne
    obtain ⟨k, hk⟩ : ∃ k, s.end_ - (s.start + s.tok_len) - 1 = k + 1 :=
      ⟨s.end_ - (s.start + s.tok_len) - 2, by omega⟩
    rw [hk, List.range_succ_eq_map] at hr
    simp at hr
  rw [htail] at hr
  simp only [List.range_zero, List.map_nil, List.nil_append] at hr
  have hfile : s.file = [] := hr.2
  rw [next_unfold_true yl s (by omega)]
  rw [if_pos (show s.start + 1 + s.tok_len ≥ s.end_ by omega)]
  rw [advance_unfold_shift _ (by simp)]
  dsimp only
  have e0 : s.end_ - (s.start + 1) = 0 := by omega
  rw [e0]
  simp only [Nat.zero_add, Nat.sub_zero, Nat.add_zero]
  rw [if_neg (show ¬ (0 : Nat) = CAPACITY by omega)]
  rw [if_pos (show min CAPACITY s.file.length = 0 by rw [hfile]; simp)]
  refine ⟨_, _, rfl, ⟨ht, by dsimp only; omega, by dsimp only; omega, Or.inr hfile⟩, ?_, rfl, rfl, ht⟩
  rw [rest, windowBytes]
  dsimp only
  simp [hfile]

theorem next_true_sim (yl : YYLTYPE) (s : fastd_lex_t) (c c2 : Nat) (r2 : List Nat)
    (h4 : P4 s) (hr : rest s = c :: c2 :: r2) :
    ∃ yl' s', next yl s true = (true, yl', s') ∧ P4 s' ∧ rest s' = c2 :: r2 ∧
      current s' = c2 ∧ s'.ferr = s.ferr ∧ s'.needspace = s.needspace ∧ s'.tok_len = 0 := by
  obtain ⟨hlt, _⟩ := rest_head s c _ h4 hr
  obtain ⟨ht, hse, hec, _⟩ := h4
  have hC : CAPACITY = 1024 := rfl
  have hw := windowBytes_cons s (by omega)
  rw [rest, hw] at hr
  simp only [List.cons_append, List.cons.injEq] at hr
  have htl := hr.2
  rw [next_unfold_true yl s (by omega)]
  by_cases hc : s.start + 1 + s.tok_len ≥ s.end_
  · -- the commit exhausted the window: a refill delivers the next byte
    have htail : s.end_ - (s.start + s.tok_len) - 1 = 0 := by omega
    rw [htail] at htl
    simp only [List.range_zero, List.map_nil, List.nil_append] at htl
    rw [if_pos hc]
    rw [advance_unfold_shift _ (by simp)]
    dsimp only
    have e0 : s.end_ - (s.start + 1) = 0 := by omega
    rw [e0]
    simp only [Nat.zero_add, Nat.sub_zero, Nat.add_zero]
    rw [if_neg (show ¬ (0 : Nat) = CAPACITY by omega)]
    have hlen : ¬ min CAPACITY s.file.length = 0 := by
      rw [htl]
      simp only [CAPACITY, List.length_cons]
      omega
    rw [if_neg hlen]
    refine ⟨_, _, rfl, ⟨ht, by dsimp only; omega, by dsimp only; omega, Or.inl (by dsimp only; omega)⟩, ?_, ?_, rfl, rfl, ht⟩
    · rw [rest, windowBytes]
      dsimp only
      rw [ht]
      simp only [Nat.zero_add, Nat.sub_zero, Nat.add_zero]
      have hmap : ((List.range (min CAPACITY s.file.length)).map fun i =>
          if 0 ≤ i ∧ i < min CAPACITY s.file.length then s.file.getD i 0
          else if i < 0 then s.buffer (s.start + 1 + i) else s.buffer i) =
          ((List.range (min CAPACITY s.file.length)).map fun i => s.file.getD i 0) :=
        List.map_congr_left fun i hi => by
          rw [if_pos ⟨Nat.zero_le i, List.mem_range.mp hi⟩]
      rw [hmap, range_map_getD _ _ (min_le_right _ _), List.take_append_drop, htl]
    · rw [current]
      dsimp only
      rw [ht]
      simp only [Nat.zero_add, Nat.add_zero]
      rw [if_pos ⟨Nat.le_refl 0, by omega⟩]
      rw [htl]
      rfl
  · -- a byte is still buffered at the new cursor
    rw [if_neg hc]
    have hshift := windowBytes_shift s { s with start := s.start + 1 } rfl rfl (by dsimp only; omega)
    refine ⟨_, _, rfl, ⟨ht, by dsimp only; omega, by dsimp only; exact hec, Or.inl (by dsimp only; omega)⟩, ?_, ?_, rfl, rfl, ht⟩
    · rw [rest, hshift]
      dsimp only
      exact htl
    · have hw' := windowBytes_cons { s with start := s.start + 1 } (by dsimp only; omega)
      rw [hshift] at hw'
      obtain ⟨k, hk⟩ : ∃ k, s.end_ - (s.start + s.tok_len) - 1 = k + 1 :=
        ⟨s.end_ - (s.start + s.tok_len) - 2, by omega⟩
      rw [hk, List.range_succ_eq_map, List.map_cons] at hw'
      rw [hk, List.range_succ_eq_map, List.map_cons] at htl
      simp only [List.cons_append, List.cons.injEq] at htl
      simp only [List.cons.injEq] at hw'
      rw [← hw'.1]
      exact htl.1

theorem consume_P4 (s : fastd_lex_t) (b : Bool) (ht : s.tok_len = 0) (h4 : P4 s) :
    P4 (consume s b) := by
  obtain ⟨_, hse, hec, hd⟩ := h4
  refine ⟨rfl, by dsimp only [consume]; omega, hec, ?_⟩
  rcases hd with h | h
  · exact Or.inl (by dsimp only [consume]; omega)
  · exact Or.inr h

theorem scanStr_nil : scanStr ([] : List Nat) = none := by
  rw [scanStr.eq_def]

theorem scanStr_cons_quote (r : List Nat) : scanStr (34 :: r) = some ([], r) := by
  conv_lhs => rw [scanStr.eq_def]
  rfl

theorem scanStr_backslash_nil : scanStr ([92] : List Nat) = none := by
  conv_lhs => rw [scanStr.eq_def]
  rfl

theorem scanStr_cons_esc (c3 : Nat) (r : List Nat) :
    scanStr (92 :: c3 :: r) = if c3 = 10 then scanStr r else (scanStr r).map fun p => (c3 :: p.1, p.2) := by
  conv_lhs => rw [scanStr.eq_def]
  rfl

theorem scanStr_cons_other (c2 : Nat) (r : List Nat) (h34 : ¬ c2 = 34) (h92 : ¬ c2 = 92) :
    scanStr (c2 :: r) = (scanStr r).map fun p => (c2 :: p.1, p.2) := by
  conv_lhs => rw [scanStr.eq_def]
  dsimp only
  rw [if_neg h34, if_neg h92]

theorem parse_string_loop_spec (n : Nat) :
    ∀ fuel buf (yv : YYSTYPE) (yl : YYLTYPE) (s : fastd_lex_t),
      P4 s → s.ferr = false → (rest s).length ≤ n → n + 1 ≤ fuel →
      (match scanStr ((rest s).drop 1) with
       | none => ∃ yl' s', parse_string_loop fuel buf yv yl s =
           some (-1, { yv with error := "unterminated string" }, yl', s')
       | some (d, r) => ∃ yl' s', parse_string_loop fuel buf yv yl s =
           some (TOK_STRING, { yv with str := buf ++ d }, yl', s') ∧
           P4 s' ∧ rest s' = r ∧ s'.ferr = false ∧ s'.needspace = true ∧ s'.tok_len = 0) := by
  induction n using Nat.strong_induction_on with
  | _ n IH =>
    intro fuel buf yv yl s h4 hferr hlen hfuel
    obtain ⟨f, rfl⟩ : ∃ f, fuel = f + 1 := ⟨fuel - 1, by omega⟩
    rcases hr : rest s with _ | ⟨c, _ | ⟨c2, r2⟩⟩
    · -- rest is empty: next fails, unterminated
      simp only [List.drop_nil, scanStr]
      refine ⟨yl, s, ?_⟩
      simp only [parse_string_loop]
      rw [next_nil_sim yl s h4 hr]
      simp [unterminated_string, hferr]
    · -- a single byte remains: it is consumed, then next fails
      simp only [List.drop_succ_cons, List.drop_zero, scanStr]
      obtain ⟨yl', s', hnx, _, _, hferr', _, _⟩ := next_one_sim yl s c h4 hr
      refine ⟨yl', s', ?_⟩
      simp only [parse_string_loop]
      rw [hnx]
      simp [unterminated_string, hferr' , hferr]
    · -- at least two bytes: commit one, inspect the byte at the cursor
      obtain ⟨yl1, s1, hnx, h41, hr1, hcur1, hferr1, hns1, ht1⟩ := next_true_sim yl s c c2 r2 h4 hr
      have hferr1' : s1.ferr = false := by rw [hferr1, hferr]
      have hlen0 : r2.length + 2 ≤ n := by
        have := congrArg List.length hr
        simp at this
        omega
      simp only [List.drop_succ_cons, List.drop_zero]
      simp only [parse_string_loop]
      rw [hnx]
      dsimp only
      rw [hcur1]
      by_cases h34 : c2 = 34
      · -- closing quote: the token is complete
        subst h34
        rw [if_pos (show (34 : Nat) = 34 from rfl)]
        rw [scanStr_cons_quote]
        rcases r2 with _ | ⟨c3, r3⟩
        · obtain ⟨yl2, s2, hnx2, h42, hr2, hferr2, hns2, ht2⟩ := next_one_sim yl1 s1 34 h41 hr1
          rw [hnx2]
          exact ⟨yl2, consume s2 true, by simp, consume_P4 s2 true ht2 h42,
            by rw [rest_consume, hr2], show s2.ferr = false by rw [hferr2, hferr1'], rfl, rfl⟩
        · obtain ⟨yl2, s2, hnx2, h42, hr2, _, hferr2, hns2, ht2⟩ := next_true_sim yl1 s1 34 c3 r3 h41 hr1
          rw [hnx2]
          exact ⟨yl2, consume s2 true, by simp, consume_P4 s2 true ht2 h42,
            by rw [rest_consume, hr2], show s2.ferr = false by rw [hferr2, hferr1'], rfl, rfl⟩
      · by_cases h92 : c2 = 92
        · -- backslash escape
          subst h92
          rw [if_neg (show ¬ (92 : Nat) = 34 by decide), if_pos (show (92 : Nat) = 92 from rfl)]
          rcases r2 with _ | ⟨c3, r3⟩
          · -- the backslash is the last byte: unterminated
            rw [scanStr_backslash_nil]
            obtain ⟨yl2, s2, hnx2, _, _, hferr2, _, _⟩ := next_one_sim yl1 s1 92 h41 hr1
            rw [hnx2]
            refine ⟨yl2, s2, ?_⟩
            have h2 : s2.ferr = false := by rw [hferr2, hferr1']
            simp [unterminated_string, h2]
          · obtain ⟨yl2, s2, hnx2, h42, hr2, hcur2, hferr2, hns2, ht2⟩ := next_true_sim yl1 s1 92 c3 r3 h41 hr1
            simp only [List.length_cons] at hlen0
            have hferr2' : s2.ferr = false := by rw [hferr2, hferr1']
            have hlen2 : (rest s2).length ≤ n - 2 := by
              rw [hr2]
              simp
              omega
            rw [hnx2]
            dsimp only
            rw [hcur2]
            rw [scanStr_cons_esc]
            by_cases h10 : c3 = 10
            · -- line continuation: both bytes dropped
              subst h10
              rw [if_pos (show (10 : Nat) = 10 from rfl), if_pos (show (10 : Nat) = 10 from rfl)]
              have IH2 := IH (n - 2) (by omega) f buf yv yl2 s2 h42 hferr2' hlen2 (by omega)
              rw [hr2] at IH2
              simp only [List.drop_succ_cons, List.drop_zero] at IH2
              exact IH2
            · -- escaped byte copied verbatim
              rw [if_neg h10, if_neg h10]
              have IH2 := IH (n - 2) (by omega) f (buf ++ [c3]) yv yl2 s2 h42 hferr2' hlen2 (by omega)
              rw [hr2] at IH2
              simp only [List.drop_succ_cons, List.drop_zero] at IH2
              rcases hscan : scanStr r3 with _ | ⟨d, r⟩
              · rw [hscan] at IH2
                exact IH2
              · rw [hscan] at IH2
                simp only [Option.map_some']
                obtain ⟨yl3, s3, heq, hrest3⟩ := IH2
                exact ⟨yl3, s3, by rw [heq]; simp, hrest3⟩
        · -- ordinary byte: copied verbatim
          rw [if_neg h34, if_neg h92]
          rw [scanStr_cons_other c2 r2 h34 h92]
          have IH1 := IH (n - 1) (by omega) f (buf ++ [c2]) yv yl1 s1 h41 hferr1'
            (by rw [hr1]; simp; omega) (by omega)
          rw [hr1] at IH1
          simp only [List.drop_succ_cons, List.drop_zero] at IH1
          rcases hscan : scanStr r2 with _ | ⟨d, r⟩
          · rw [hscan] at IH1
            exact IH1
          · rw [hscan] at IH1
            simp only [Option.map_some']
            obtain ⟨yl3, s3, heq, hrest3⟩ := IH1
            exact ⟨yl3, s3, by rw [heq]; simp, hrest3⟩

theorem escapeStr_nil : escapeStr [] = [] := rfl

theorem escapeStr_cons_esc (b : Nat) (s : List Nat) (hb : b = 34 ∨ b = 92) :
    escapeStr (b :: s) = 92 :: b :: escapeStr s := by
  unfold escapeStr
  simp only [List.flatMap_cons]
  rw [if_pos hb]
  rfl

theorem escapeStr_cons_other (b : Nat) (s : List Nat) (hb : ¬ (b = 34 ∨ b = 92)) :
    escapeStr (b :: s) = b :: escapeStr s := by
  unfold escapeStr
  simp only [List.flatMap_cons]
  rw [if_neg hb]
  rfl

theorem scanStr_escape (s t : List Nat) : scanStr (escapeStr s ++ (34 :: t)) = some (s, t) := by
  induction s with
  | nil =>
    rw [escapeStr_nil, List.nil_append, scanStr_cons_quote]
  | cons b s' ih =>
    by_cases hb : b = 34 ∨ b = 92
    · rw [escapeStr_cons_esc b s' hb, List.cons_append, List.cons_append, scanStr_cons_esc]
      have hb10 : ¬ b = 10 := by rcases hb with h | h <;> omega
      rw [if_neg hb10, ih]
      rfl
    · push_neg at hb
      rw [escapeStr_cons_other b s' (by push_neg; exact hb), List.cons_append,
        scanStr_cons_other b _ hb.1 hb.2, ih]
      rfl

theorem lexFuel_pos (s : fastd_lex_t) : ∃ m, lexFuel s = m + 1 ∧ m + 1 = lexFuel s :=
  ⟨lexFuel s - 1, by simp [lexFuel], by simp [lexFuel]⟩

theorem pull_eof (yv : YYSTYPE) (yl : YYLTYPE) (s : fastd_lex_t)
    (he : s.end_ ≤ s.start) (hferr : s.ferr = false) :
    fastd_lex yv yl s = some (0, yv, yl, s) := by
  unfold fastd_lex
  obtain ⟨m, hm, _⟩ := lexFuel_pos s
  rw [hm]
  simp only [fastd_lexF]
  rw [if_neg (by omega : ¬ s.end_ > s.start)]
  simp [end_of_input, hferr]

theorem fastd_lex_dispatch_string (yv : YYSTYPE) (yl : YYLTYPE) (s : fastd_lex_t)
    (hgt : s.end_ > s.start) (hcur : current s = 34) :
    fastd_lex yv yl s = parse_string (lexFuel s - 1) yv
      { yl with first_line := yl.last_line, first_column := yl.last_column + 1 } s := by
  unfold fastd_lex
  obtain ⟨m, hm, _⟩ := lexFuel_pos s
  rw [hm, show m + 1 - 1 = m by omega]
  simp only [fastd_lexF]
  rw [if_pos hgt]
  rw [hcur]
  rw [if_neg (by decide : ¬((34:Nat) = 32 ∨ (34:Nat) = 10 ∨ (34:Nat) = 9 ∨ (34:Nat) = 13))]
  rw [if_neg (by decide : ¬((34:Nat) = 59 ∨ (34:Nat) = 58 ∨ (34:Nat) = 123 ∨ (34:Nat) = 125))]
  rw [if_neg (by decide : ¬(34:Nat) = 47), if_neg (by decide : ¬(34:Nat) = 35),
    if_pos (show (34:Nat) = 34 from rfl)]

theorem fastd_lex_dispatch_ipv6 (yv : YYSTYPE) (yl : YYLTYPE) (s : fastd_lex_t)
    (hgt : s.end_ > s.start) (hcur : current s = 91) :
    fastd_lex yv yl s = parse_ipv6_address (lexFuel s - 1) yv
      { yl with first_line := yl.last_line, first_column := yl.last_column + 1 } s := by
  unfold fastd_lex
  obtain ⟨m, hm, _⟩ := lexFuel_pos s
  rw [hm, show m + 1 - 1 = m by omega]
  simp only [fastd_lexF]
  rw [if_pos hgt]
  rw [hcur]
  rw [if_neg (by decide : ¬((91:Nat) = 32 ∨ (91:Nat) = 10 ∨ (91:Nat) = 9 ∨ (91:Nat) = 13))]
  rw [if_neg (by decide : ¬((91:Nat) = 59 ∨ (91:Nat) = 58 ∨ (91:Nat) = 123 ∨ (91:Nat) = 125))]
  rw [if_neg (by decide : ¬(91:Nat) = 47), if_neg (by decide : ¬(91:Nat) = 35),
    if_neg (by decide : ¬(91:Nat) = 34), if_pos (show (91:Nat) = 91 from rfl)]

theorem fastd_lex_dispatch_number (yv : YYSTYPE) (yl : YYLTYPE) (s : fastd_lex_t)
    (hgt : s.end_ > s.start) (hdig : 48 ≤ current s ∧ current s ≤ 57) :
    fastd_lex yv yl s = parse_number (lexFuel s - 1) yv
      { yl with first_line := yl.last_line, first_column := yl.last_column + 1 } s := by
  unfold fastd_lex
  obtain ⟨m, hm, _⟩ := lexFuel_pos s
  rw [hm, show m + 1 - 1 = m by omega]
  simp only [fastd_lexF]
  rw [if_pos hgt]
  rw [if_neg (by omega), if_neg (by omega), if_neg (by omega), if_neg (by omega),
    if_neg (by omega), if_neg (by omega), if_pos hdig]

theorem fastd_lex_dispatch_keyword (yv : YYSTYPE) (yl : YYLTYPE) (s : fastd_lex_t)
    (hgt : s.end_ > s.start) (hkw : 97 ≤ current s ∧ current s ≤ 122) :
    fastd_lex yv yl s = parse_keyword (lexFuel s - 1) yv
      { yl with first_line := yl.last_line, first_column := yl.last_column + 1 } s := by
  unfold fastd_lex
  obtain ⟨m, hm, _⟩ := lexFuel_pos s
  rw [hm, show m + 1 - 1 = m by omega]
  simp only [fastd_lexF]
  rw [if_pos hgt]
  rw [if_neg (by omega), if_neg (by omega), if_neg (by omega), if_neg (by omega),
    if_neg (by omega), if_neg (by omega), if_neg (by omega), if_pos hkw]

theorem parse_string_needspace (fuel : Nat) (yv : YYSTYPE) (yl : YYLTYPE) (s : fastd_lex_t)
    (hns : s.needspace = true) :
    parse_string fuel yv yl s = some (-1, { yv with error := "syntax error" }, yl, s) := by
  unfold parse_string
  rw [if_pos hns]
  rfl

theorem parse_ipv6_needspace (fuel : Nat) (yv : YYSTYPE) (yl : YYLTYPE) (s : fastd_lex_t)
    (hns : s.needspace = true) :
    parse_ipv6_address fuel yv yl s = some (-1, { yv with error := "syntax error" }, yl, s) := by
  unfold parse_ipv6_address
  rw [if_pos hns]
  rfl

theorem parse_number_needspace (fuel : Nat) (yv : YYSTYPE) (yl : YYLTYPE) (s : fastd_lex_t)
    (hns : s.needspace = true) :
    parse_number fuel yv yl s = some (-1, { yv with error := "syntax error" }, yl, s) := by
  unfold parse_number
  rw [if_pos hns]
  rfl

theorem parse_keyword_needspace (fuel : Nat) (yv : YYSTYPE) (yl : YYLTYPE) (s : fastd_lex_t)
    (hns : s.needspace = true) :
    parse_keyword fuel yv yl s = some (-1, { yv with error := "syntax error" }, yl, s) := by
  unfold parse_keyword
  rw [if_pos hns]
  rfl

theorem rest_length_le (s : fastd_lex_t) : (rest s).length ≤ s.end_ + s.file.length := by
  rw [rest, windowBytes]
  simp

theorem parse_string_go (fuel : Nat) (yv : YYSTYPE) (yl : YYLTYPE) (s : fastd_lex_t)
    (h4 : P4 s) (hferr : s.ferr = false) (hns : s.needspace = false)
    (hfuel : (rest s).length + 1 ≤ fuel) :
    (match scanStr ((rest s).drop 1) with
     | none => ∃ yl' s', parse_string fuel yv yl s =
         some (-1, { yv with error := "unterminated string" }, yl', s')
     | some (d, r) => ∃ yl' s', parse_string fuel yv yl s =
         some (TOK_STRING, { yv with str := d }, yl', s') ∧
         P4 s' ∧ rest s' = r ∧ s'.ferr = false ∧ s'.needspace = true ∧ s'.tok_len = 0) := by
  have h := parse_string_loop_spec (rest s).length fuel [] yv yl s h4 hferr (Nat.le_refl _) hfuel
  have hunf : parse_string fuel yv yl s = parse_string_loop fuel [] yv yl s := by
    unfold parse_string
    rw [if_neg (by rw [hns]; simp)]
  rcases hscan : scanStr ((rest s).drop 1) with _ | ⟨d, r⟩
  · rw [hscan] at h
    obtain ⟨yl', s', heq⟩ := h
    exact ⟨yl', s', by rw [hunf, heq]⟩
  · rw [hscan] at h
    obtain ⟨yl', s', heq, hrest⟩ := h
    exact ⟨yl', s', by rw [hunf, heq]; simp, hrest⟩

set_option maxHeartbeats 1000000 in
theorem lexOnce_scanStr (t d r : List Nat) (hscan : scanStr t = some (d, r)) :
    ((lexOnce (34 :: t)).map fun p => (p.1, p.2.1.str)) = some (TOK_STRING, d) := by
  have h40 : P4 (fastd_lex_init (34 :: t) false) := init_P4 (34 :: t) false
  have hrest0 : rest (fastd_lex_init (34 :: t) false) = 34 :: t := rest_init (34 :: t) false
  obtain ⟨_, hferr0, hns0, _, _, _, _⟩ := fastd_lex_init_spec (34 :: t) false
  obtain ⟨hlt0, hcur0⟩ := rest_head _ 34 _ h40 hrest0
  have hdisp := fastd_lex_dispatch_string yv0 yl0 _ (by omega) hcur0
  have hfuel : (rest (fastd_lex_init (34 :: t) false)).length + 1 ≤
      lexFuel (fastd_lex_init (34 :: t) false) - 1 := by
    have := rest_length_le (fastd_lex_init (34 :: t) false)
    simp only [lexFuel]
    omega
  have hps := parse_string_go _ yv0
    { yl0 with first_line := yl0.last_line, first_column := yl0.last_column + 1 } _ h40 hferr0 hns0 hfuel
  rw [hrest0] at hps
  rw [show ((34 :: t).drop 1) = t from rfl] at hps
  rw [hscan] at hps
  obtain ⟨yl', s', heq, _⟩ := hps
  unfold lexOnce
  rw [hdisp, heq]
  rfl

set_option maxHeartbeats 1000000 in
/-- Claim C4: string decoding.  Lexing the quoted, escaped form of any byte
sequence `s` yields exactly one STRING token whose decoded payload equals `s`
(and the following pull reports clean end of input); a backslash before a
newline inside the string drops both bytes from the output (prepending the
pair to the quoted form of `s` leaves the payload `s` unchanged); and a
backslash before any other byte `c` drops the backslash and copies `c`
verbatim, the decoded payload being exactly `[c]`. -/
theorem claim_C4 (s : List Nat) (c : Nat) (hc : c ≠ 10) :
    (((lexOnce (34 :: (escapeStr s ++ [34]))).map fun r => (r.1, r.2.1.str)) = some (TOK_STRING, s) ∧
      ((lexTwice (34 :: (escapeStr s ++ [34]))).map fun r => r.1) = some 0) ∧
    ((lexOnce (34 :: 92 :: 10 :: (escapeStr s ++ [34]))).map fun r => (r.1, r.2.1.str)) =
      some (TOK_STRING, s) ∧
    ((lexOnce [34, 92, c, 34]).map fun r => (r.1, r.2.1.str)) = some (TOK_STRING, [c]) := by
  have hAB : ((lexOnce (34 :: (escapeStr s ++ [34]))).map fun r => (r.1, r.2.1.str)) = some (TOK_STRING, s) ∧
      ((lexTwice (34 :: (escapeStr s ++ [34]))).map fun r => r.1) = some 0 := by
    have h40 : P4 (fastd_lex_init (34 :: (escapeStr s ++ [34])) false) :=
      init_P4 (34 :: (escapeStr s ++ [34])) false
    have hrest0 : rest (fastd_lex_init (34 :: (escapeStr s ++ [34])) false) = 34 :: (escapeStr s ++ [34]) :=
      rest_init (34 :: (escapeStr s ++ [34])) false
    obtain ⟨_, hferr0, hns0, _, _, _, _⟩ := fastd_lex_init_spec (34 :: (escapeStr s ++ [34])) false
    obtain ⟨hlt0, hcur0⟩ := rest_head _ 34 _ h40 hrest0
    have hdisp := fastd_lex_dispatch_string yv0 yl0 _ (by omega) hcur0
    have hfuel : (rest (fastd_lex_init (34 :: (escapeStr s ++ [34])) false)).length + 1 ≤
        lexFuel (fastd_lex_init (34 :: (escapeStr s ++ [34])) false) - 1 := by
      have := rest_length_le (fastd_lex_init (34 :: (escapeStr s ++ [34])) false)
      simp only [lexFuel]
      omega
    have hps := parse_string_go _ yv0
      { yl0 with first_line := yl0.last_line, first_column := yl0.last_column + 1 } _ h40 hferr0 hns0 hfuel
    rw [hrest0] at hps
    rw [show ((34 :: (escapeStr s ++ [34])).drop 1) = escapeStr s ++ (34 :: []) from rfl] at hps
    rw [scanStr_escape] at hps
    obtain ⟨yl', s', heq, h4', hrest', hferr', hns', ht'⟩ := hps
    have hEnd : s'.end_ ≤ s'.start := (rest_nil_parts s' h4' hrest').1
    constructor
    · unfold lexOnce
      rw [hdisp, heq]
      rfl
    · unfold lexTwice lexOnce
      rw [hdisp, heq]
      simp only [Option.some_bind]
      rw [pull_eof _ _ s' hEnd hferr']
      rfl
  have hC : scanStr (92 :: 10 :: (escapeStr s ++ [34])) = some (s, []) := by
    rw [scanStr_cons_esc, if_pos rfl]
    exact scanStr_escape s []
  have hD : scanStr (92 :: c :: [34]) = some ([c], []) := by
    rw [scanStr_cons_esc, if_neg hc, scanStr_cons_quote]
    rfl
  exact ⟨hAB, lexOnce_scanStr _ _ _ hC, lexOnce_scanStr _ _ _ hD⟩

/-- C4 witness: the escape conjuncts at the payload `a` and the escaped byte
`x` (120). -/
theorem claim_C4_witness :
    (120 : Nat) ≠ 10 ∧
    ((lexOnce [34, 92, 10, 97, 34]).map fun r => (r.1, r.2.1.str)) = some (TOK_STRING, [97]) ∧
    ((lexOnce [34, 92, 120, 34]).map fun r => (r.1, r.2.1.str)) = some (TOK_STRING, [120]) :=
  ⟨by decide, (claim_C4 [97] 120 (by decide)).2.1, (claim_C4 [97] 120 (by decide)).2.2⟩

theorem next_false_mid (yl : YYLTYPE) (s : fastd_lex_t) (h : s.start + (s.tok_len + 1) < s.end_) :
    next yl s false = (true,
      (if current s = 10 then { yl with last_column := 0, last_line := yl.last_line + 1 }
       else { yl with last_column := yl.last_column + 1 }),
      { s with tok_len := s.tok_len + 1 }) := by
  rw [next_unfold_false yl s (by omega)]
  rw [if_neg (by omega : ¬ s.start + (s.tok_len + 1) ≥ s.end_)]

theorem next_false_end (yl : YYLTYPE) (s : fastd_lex_t) (hF : Fresh s)
    (h0 : s.start + s.tok_len < s.end_) (h : s.end_ ≤ s.start + (s.tok_len + 1)) :
    next yl s false = (false,
      (if current s = 10 then { yl with last_column := 0, last_line := yl.last_line + 1 }
       else { yl with last_column := yl.last_column + 1 }),
      { s with tok_len := s.tok_len + 1 }) := by
  obtain ⟨hs0, hcap, hd⟩ := hF
  rw [next_unfold_false yl s (by omega)]
  rw [if_pos (by omega : s.start + (s.tok_len + 1) ≥ s.end_)]
  rw [advance_unfold_zero _ (by dsimp only; exact hs0)]
  dsimp only
  rcases hd with hfile | hce
  · by_cases he : s.end_ = CAPACITY
    · rw [if_pos he]
    · rw [if_neg he, if_pos (by rw [hfile]; simp)]
  · rw [if_pos hce]

theorem scan_kw_run (w : List Nat) : ∀ (fuel : Nat) (yl : YYLTYPE) (s : fastd_lex_t), Fresh s →
    windowBytes s = w → w ≠ [] → w.length ≤ fuel →
    ∃ yl', scan_kw_loop fuel yl s = some (yl',
      { s with tok_len := s.tok_len + 1 + ((w.drop 1).takeWhile fun c =>
          decide ((97 ≤ c ∧ c ≤ 122) ∨ (48 ≤ c ∧ c ≤ 57) ∨ c = 45)).length }) := by
  induction w with
  | nil => intro fuel yl s _ _ hne _; exact absurd rfl hne
  | cons c w' ih =>
    intro fuel yl s hF hw hne hfuel
    obtain ⟨f, rfl⟩ : ∃ f, fuel = f + 1 := by
      have h1 : (c :: w').length = w'.length + 1 := List.length_cons c w'
      exact ⟨fuel - 1, by omega⟩
    have hlenw : s.end_ - (s.start + s.tok_len) = w'.length + 1 := by
      have := congrArg List.length hw
      simp only [windowBytes, List.length_map, List.length_range, List.length_cons] at this
      omega
    have hcw : s.start + s.tok_len < s.end_ := by omega
    have hcons := windowBytes_cons s hcw
    rw [hw] at hcons
    have hwin1 : windowBytes { s with tok_len := s.tok_len + 1 } = w' := by
      rw [windowBytes_shift s { s with tok_len := s.tok_len + 1 } rfl rfl (by dsimp only; omega)]
      simp only [List.cons.injEq] at hcons
      exact hcons.2.symm
    simp only [scan_kw_loop]
    rcases w' with _ | ⟨d, w''⟩
    · simp only [List.length_nil] at hlenw
      rw [next_false_end yl s hF hcw (by omega)]
      exact ⟨_, rfl⟩
    · simp only [List.length_cons] at hlenw
      have hlen2 : s.start + (s.tok_len + 1) < s.end_ := by omega
      rw [next_false_mid yl s hlen2]
      have hcur1 : current { s with tok_len := s.tok_len + 1 } = d := by
        have h2 := windowBytes_cons { s with tok_len := s.tok_len + 1 } (by dsimp only; omega)
        rw [hwin1] at h2
        simp only [List.cons.injEq] at h2
        exact h2.1.symm
      dsimp only
      rw [hcur1]
      by_cases hcls : (97 ≤ d ∧ d ≤ 122) ∨ (48 ≤ d ∧ d ≤ 57) ∨ d = 45
      · rw [if_pos hcls]
        obtain ⟨yl'', hrec⟩ := ih f
          (if current s = 10 then { yl with last_column := 0, last_line := yl.last_line + 1 }
           else { yl with last_column := yl.last_column + 1 })
          { s with tok_len := s.tok_len + 1 } hF hwin1
          (List.cons_ne_nil d w'')
          (by have h2 : (c :: d :: w'').length = w''.length + 2 := by simp
              have h3 : (d :: w'').length = w''.length + 1 := by simp
              omega)
        rw [hrec]
        refine ⟨yl'', ?_⟩
        simp only [List.drop_succ_cons, List.drop_zero]
        rw [List.takeWhile_cons_of_pos (by simpa using hcls)]
        simp only [Option.some.injEq, Prod.mk.injEq, fastd_lex_t.mk.injEq, List.length_cons,
          true_and, and_true]
        omega
      · rw [if_neg hcls]
        refine ⟨(if current s = 10 then { yl with last_column := 0, last_line := yl.last_line + 1 }
          else { yl with last_column := yl.last_column + 1 }), ?_⟩
        simp only [List.drop_succ_cons, List.drop_zero]
        rw [List.takeWhile_cons_of_neg (by simpa using hcls)]
        simp only [Option.some.injEq, Prod.mk.injEq, fastd_lex_t.mk.injEq, List.length_nil,
          true_and, and_true]

theorem scan6_run (w : List Nat) : ∀ (fuel : Nat) (yl : YYLTYPE) (s : fastd_lex_t), Fresh s →
    windowBytes s = w → w ≠ [] → w.length ≤ fuel →
    ∃ yl', scan6_loop fuel yl s = some (yl',
      { s with tok_len := s.tok_len + 1 + ((w.drop 1).takeWhile fun c =>
          decide ((48 ≤ c ∧ c ≤ 57) ∨ c = 58)).length }) := by
  induction w with
  | nil => intro fuel yl s _ _ hne _; exact absurd rfl hne
  | cons c w' ih =>
    intro fuel yl s hF hw hne hfuel
    obtain ⟨f, rfl⟩ : ∃ f, fuel = f + 1 := by
      have h1 : (c :: w').length = w'.length + 1 := List.length_cons c w'
      exact ⟨fuel - 1, by omega⟩
    have hlenw : s.end_ - (s.start + s.tok_len) = w'.length + 1 := by
      have := congrArg List.length hw
      simp only [windowBytes, List.length_map, List.length_range, List.length_cons] at this
      omega
    have hcw : s.start + s.tok_len < s.end_ := by omega
    have hcons := windowBytes_cons s hcw
    rw [hw] at hcons
    have hwin1 : windowBytes { s with tok_len := s.tok_len + 1 } = w' := by
      rw [windowBytes_shift s { s with tok_len := s.tok_len + 1 } rfl rfl (by dsimp only; omega)]
      simp only [List.cons.injEq] at hcons
      exact hcons.2.symm
    simp only [scan6_loop]
    rcases w' with _ | ⟨d, w''⟩
    · simp only [List.length_nil] at hlenw
      rw [next_false_end yl s hF hcw (by omega)]
      exact ⟨_, rfl⟩
    · simp only [List.length_cons] at hlenw
      have hlen2 : s.start + (s.tok_len + 1) < s.end_ := by omega
      rw [next_false_mid yl s hlen2]
      have hcur1 : current { s with tok_len := s.tok_len + 1 } = d := by
        have h2 := windowBytes_cons { s with tok_len := s.tok_len + 1 } (by dsimp only; omega)
        rw [hwin1] at h2
        simp only [List.cons.injEq] at h2
        exact h2.1.symm
      dsimp only
      rw [hcur1]
      by_cases hcls : (48 ≤ d ∧ d ≤ 57) ∨ d = 58
      · rw [if_pos hcls]
        obtain ⟨yl'', hrec⟩ := ih f
          (if current s = 10 then { yl with last_column := 0, last_line := yl.last_line + 1 }
           else { yl with last_column := yl.last_column + 1 })
          { s with tok_len := s.tok_len + 1 } hF hwin1
          (List.cons_ne_nil d w'')
          (by have h2 : (c :: d :: w'').length = w''.length + 2 := by simp
              have h3 : (d :: w'').length = w''.length + 1 := by simp
              omega)
        rw [hrec]
        refine ⟨yl'', ?_⟩
        simp only [List.drop_succ_cons, List.drop_zero]
        rw [List.takeWhile_cons_of_pos (by simpa using hcls)]
        simp only [Option.some.injEq, Prod.mk.injEq, fastd_lex_t.mk.injEq, List.length_cons,
          true_and, and_true]
        omega
      · rw [if_neg hcls]
        refine ⟨(if current s = 10 then { yl with last_column := 0, last_line := yl.last_line + 1 }
          else { yl with last_column := yl.last_column + 1 }), ?_⟩
        simp only [List.drop_succ_cons, List.drop_zero]
        rw [List.takeWhile_cons_of_neg (by simpa using hcls)]
        simp only [Option.some.injEq, Prod.mk.injEq, fastd_lex_t.mk.injEq, List.length_nil,
          true_and, and_true]

theorem scan_num_run (w : List Nat) : ∀ (fuel : Nat) (yl : YYLTYPE) (s : fastd_lex_t), Fresh s →
    windowBytes s = w → w ≠ [] → (∀ b ∈ w.drop 1, ¬ b = 46) → w.length ≤ fuel →
    ∃ yl', scan_num_loop fuel yl s = some (false, yl',
      { s with tok_len := s.tok_len + 1 + ((w.drop 1).takeWhile fun c =>
          decide (48 ≤ c ∧ c ≤ 57)).length }) := by
  induction w with
  | nil => intro fuel yl s _ _ hne _ _; exact absurd rfl hne
  | cons c w' ih =>
    intro fuel yl s hF hw hne hnd hfuel
    obtain ⟨f, rfl⟩ : ∃ f, fuel = f + 1 := by
      have h1 : (c :: w').length = w'.length + 1 := List.length_cons c w'
      exact ⟨fuel - 1, by omega⟩
    have hlenw : s.end_ - (s.start + s.tok_len) = w'.length + 1 := by
      have := congrArg List.length hw
      simp only [windowBytes, List.length_map, List.length_range, List.length_cons] at this
      omega
    have hcw : s.start + s.tok_len < s.end_ := by omega
    have hcons := windowBytes_cons s hcw
    rw [hw] at hcons
    have hwin1 : windowBytes { s with tok_len := s.tok_len + 1 } = w' := by
      rw [windowBytes_shift s { s with tok_len := s.tok_len + 1 } rfl rfl (by dsimp only; omega)]
      simp only [List.cons.injEq] at hcons
      exact hcons.2.symm
    simp only [List.drop_succ_cons, List.drop_zero] at hnd
    simp only [scan_num_loop]
    rcases w' with _ | ⟨d, w''⟩
    · simp only [List.length_nil] at hlenw
      rw [next_false_end yl s hF hcw (by omega)]
      exact ⟨_, rfl⟩
    · simp only [List.length_cons] at hlenw
      have hlen2 : s.start + (s.tok_len + 1) < s.end_ := by omega
      rw [next_false_mid yl s hlen2]
      have hcur1 : current { s with tok_len := s.tok_len + 1 } = d := by
        have h2 := windowBytes_cons { s with tok_len := s.tok_len + 1 } (by dsimp only; omega)
        rw [hwin1] at h2
        simp only [List.cons.injEq] at h2
        exact h2.1.symm
      dsimp only
      rw [hcur1]
      rw [if_neg (hnd d (List.mem_cons_self d w''))]
      by_cases hcls : 48 ≤ d ∧ d ≤ 57
      · rw [if_pos hcls]
        obtain ⟨yl'', hrec⟩ := ih f
          (if current s = 10 then { yl with last_column := 0, last_line := yl.last_line + 1 }
           else { yl with last_column := yl.last_column + 1 })
          { s with tok_len := s.tok_len + 1 } hF hwin1
          (List.cons_ne_nil d w'')
          (by intro b hb
              exact hnd b (List.mem_cons_of_mem d (by simpa using hb)))
          (by have h2 : (c :: d :: w'').length = w''.length + 2 := by simp
              have h3 : (d :: w'').length = w''.length + 1 := by simp
              omega)
        rw [hrec]
        refine ⟨yl'', ?_⟩
        simp only [List.drop_succ_cons, List.drop_zero]
        rw [List.takeWhile_cons_of_pos (by simpa using hcls)]
        simp only [Option.some.injEq, Prod.mk.injEq, fastd_lex_t.mk.injEq, List.length_cons,
          true_and, and_true]
        omega
      · rw [if_neg hcls]
        refine ⟨(if current s = 10 then { yl with last_column := 0, last_line := yl.last_line + 1 }
          else { yl with last_column := yl.last_column + 1 }), ?_⟩
        simp only [List.drop_succ_cons, List.drop_zero]
        rw [List.takeWhile_cons_of_neg (by simpa using hcls)]
        simp only [Option.some.injEq, Prod.mk.injEq, fastd_lex_t.mk.injEq, List.length_nil,
          true_and, and_true]

theorem takeWhile_all (p : Nat → Bool) (l : List Nat) (h : ∀ b ∈ l, p b = true) :
    l.takeWhile p = l := by
  induction l with
  | nil => rfl
  | cons a t ih =>
    rw [List.takeWhile_cons_of_pos (h a (List.mem_cons_self a t)),
      ih fun b hb => h b (List.mem_cons_of_mem a hb)]

theorem windowBytes_init (bytes : List Nat) (e : Bool) :
    windowBytes (fastd_lex_init bytes e) = bytes.take (min CAPACITY bytes.length) := by
  obtain ⟨_, _, _, hs, he, ht, hb⟩ := fastd_lex_init_spec bytes e
  rw [windowBytes, hs, ht, he]
  have hmap : ((List.range (min CAPACITY bytes.length - (0 + 0))).map fun i =>
      (fastd_lex_init bytes e).buffer (0 + 0 + i)) =
      ((List.range (min CAPACITY bytes.length)).map fun i => bytes.getD i 0) := by
    simp only [Nat.add_zero, Nat.zero_add, Nat.sub_zero]
    apply List.map_congr_left
    intro i hi
    exact hb i (List.mem_range.mp hi)
  rw [hmap, range_map_getD _ _ (Nat.min_le_right _ _)]

theorem get_token_upd (bytes : List Nat) (e : Bool) (m : Nat)
    (hm : m ≤ min CAPACITY bytes.length) (hnz : ∀ b ∈ bytes.take m, b ≠ 0) :
    get_token { fastd_lex_init bytes e with tok_len := m } = bytes.take m := by
  obtain ⟨_, _, _, hs, _, _, hb⟩ := fastd_lex_init_spec bytes e
  rw [get_token]
  dsimp only
  have hmap : ((List.range m).map fun i =>
      (fastd_lex_init bytes e).buffer ((fastd_lex_init bytes e).start + i)) =
      ((List.range m).map fun i => bytes.getD i 0) := by
    apply List.map_congr_left
    intro i hi
    rw [hs, Nat.zero_add, hb i (by have := List.mem_range.mp hi; omega)]
  rw [hmap, range_map_getD _ _ (by have := Nat.min_le_right CAPACITY bytes.length; omega)]
  exact takeWhile_of_all _ hnz

theorem foldl_digits (L : List Nat) : ∀ a : Nat,
    L.reverse.foldl (fun x d => x * 10 + d) a = a * 10 ^ L.length + Nat.ofDigits 10 L := by
  induction L with
  | nil => intro a; simp
  | cons d L' ih =>
    intro a
    rw [List.reverse_cons, List.foldl_append, ih a]
    simp only [List.foldl_cons, List.foldl_nil, List.length_cons, Nat.ofDigits_cons]
    ring

theorem decimalBytes_digits (n : Nat) : ∀ b ∈ decimalBytes n, 48 ≤ b ∧ b ≤ 57 := by
  intro b hb
  rw [decimalBytes] at hb
  by_cases h0 : n = 0
  · rw [if_pos h0] at hb
    simp at hb
    omega
  · rw [if_neg h0] at hb
    simp only [List.mem_map, List.mem_reverse] at hb
    obtain ⟨d, hd, rfl⟩ := hb
    have := Nat.digits_lt_base (by norm_num) hd
    omega

theorem decimalBytes_ne_nil (n : Nat) : decimalBytes n ≠ [] := by
  rw [decimalBytes]
  by_cases h0 : n = 0
  · rw [if_pos h0]
    simp
  · rw [if_neg h0]
    simp only [ne_eq, List.map_eq_nil_iff, List.reverse_eq_nil_iff]
    exact Nat.digits_ne_nil_iff_ne_zero.mpr h0

theorem decimalBytes_len (n : Nat) (h : n < 2 ^ 64) : (decimalBytes n).length ≤ 20 := by
  rw [decimalBytes]
  by_cases h0 : n = 0
  · rw [if_pos h0]
    simp
  · rw [if_neg h0]
    simp only [List.length_map, List.length_reverse]
    have h20 : n < 10 ^ 20 := by
      calc n < 2 ^ 64 := h
      _ ≤ 10 ^ 20 := by norm_num
    rw [Nat.digits_len 10 n (by norm_num) h0]
    have := Nat.log_lt_of_lt_pow h0 h20
    omega

theorem strtoull10_decimal (n : Nat) (h : n < 2 ^ 64) : strtoull10 (decimalBytes n) = (n, []) := by
  have hdig := decimalBytes_digits n
  have htw : (decimalBytes n).takeWhile (fun c => 48 ≤ c && c ≤ 57) = decimalBytes n :=
    takeWhile_all _ _ fun b hb => by
      have := hdig b hb
      simp
      omega
  rw [strtoull10]
  simp only [htw, List.drop_length]
  have hfold : (decimalBytes n).foldl (fun a c => a * 10 + (c - 48)) 0 = n := by
    rw [decimalBytes]
    by_cases h0 : n = 0
    · rw [if_pos h0, h0]
      rfl
    · rw [if_neg h0]
      rw [List.foldl_map]
      have hcong : ((Nat.digits 10 n).reverse.foldl (fun a d => a * 10 + (d + 48 - 48)) 0) =
          ((Nat.digits 10 n).reverse.foldl (fun a d => a * 10 + d) 0) :=
        List.foldl_ext _ _ 0 fun a b _ => by rw [Nat.add_sub_cancel]
      rw [hcong, foldl_digits, Nat.zero_mul, Nat.zero_add, Nat.ofDigits_digits]
  rw [hfold, if_neg (by omega)]

/-- Claim C3: for every `n` in `[0, 2^64-1]`, a token pull on the decimal
text of `n` returns UINT carrying exactly the value `n` (the scanned digit
run always passes the full-conversion check of `strtoull`; its failure
branch returns InvalidInteger, as embedded in `parse_number`). -/
theorem claim_C3 (n : Nat) (h : n < 2 ^ 64) :
    ((lexOnce (decimalBytes n)).map fun r => (r.1, r.2.1.uint64)) = some (TOK_UINT, n) := by
  have hC : CAPACITY = 1024 := rfl
  have hlen20 := decimalBytes_len n h
  have hne := decimalBytes_ne_nil n
  have hdig := decimalBytes_digits n
  obtain ⟨hf, hferr0, hns0, hs, he, ht, hb⟩ := fastd_lex_init_spec (decimalBytes n) false
  have hF := init_Fresh (decimalBytes n) false
  have h40 := init_P4 (decimalBytes n) false
  have hrest := rest_init (decimalBytes n) false
  have hminlen : min CAPACITY (decimalBytes n).length = (decimalBytes n).length := by omega
  obtain ⟨c, t, hct⟩ := List.exists_cons_of_ne_nil hne
  obtain ⟨hlt, hcur⟩ := rest_head _ c t h40 (by rw [hrest, hct])
  have hcdig : 48 ≤ c ∧ c ≤ 57 := hdig c (by rw [hct]; exact List.mem_cons_self c t)
  have hdisp := fastd_lex_dispatch_number yv0 yl0 (fastd_lex_init (decimalBytes n) false)
    (by omega) (by rw [hcur]; exact hcdig)
  have hwin : windowBytes (fastd_lex_init (decimalBytes n) false) = decimalBytes n := by
    rw [windowBytes_init, hminlen, List.take_length]
  have hfuel2 : (decimalBytes n).length ≤ lexFuel (fastd_lex_init (decimalBytes n) false) - 1 := by
    simp only [lexFuel]
    omega
  obtain ⟨yl', hscan⟩ := scan_num_run (decimalBytes n)
    (lexFuel (fastd_lex_init (decimalBytes n) false) - 1)
    { yl0 with first_line := yl0.last_line, first_column := yl0.last_column + 1 }
    (fastd_lex_init (decimalBytes n) false) hF hwin hne
    (fun b hb => by have := hdig b (List.mem_of_mem_drop hb); omega)
    hfuel2
  have htw : (((decimalBytes n).drop 1).takeWhile fun c => decide (48 ≤ c ∧ c ≤ 57)) =
      (decimalBytes n).drop 1 :=
    takeWhile_all _ _ fun b hb => by
      have := hdig b (List.mem_of_mem_drop hb)
      simp
      omega
  rw [htw] at hscan
  have hlp : (decimalBytes n).length = t.length + 1 := by rw [hct]; simp
  have htl : (fastd_lex_init (decimalBytes n) false).tok_len + 1 + ((decimalBytes n).drop 1).length =
      (decimalBytes n).length := by
    have hdl : ((decimalBytes n).drop 1).length = (decimalBytes n).length - 1 := by simp
    omega
  unfold lexOnce
  rw [hdisp]
  unfold parse_number
  rw [if_neg (by rw [hns0]; simp)]
  rw [hscan]
  dsimp only
  rw [htl]
  rw [get_token_upd (decimalBytes n) false (decimalBytes n).length (by omega)
    (fun b hb => by have := hdig b (by simpa using (List.take_subset _ _ hb)); omega)]
  rw [List.take_length, strtoull10_decimal n h]
  rfl

/-- Claim C3 witness at `n = 5`. -/
theorem claim_C3_witness :
    (5 : Nat) < 2 ^ 64 ∧
    ((lexOnce (decimalBytes 5)).map fun r => (r.1, r.2.1.uint64)) = some (TOK_UINT, 5) :=
  ⟨by norm_num, claim_C3 5 (by norm_num)⟩

theorem strcmp_eq_zero (xs : List Nat) : ∀ ys, (∀ b ∈ xs, b ≠ 0) → (∀ b ∈ ys, b ≠ 0) →
    strcmp xs ys = 0 → xs = ys := by
  induction xs with
  | nil =>
    intro ys _ hy h
    cases ys with
    | nil => rfl
    | cons b ys' =>
      exfalso
      simp only [strcmp] at h
      have hb : b ≠ 0 := hy b (List.mem_cons_self b ys')
      omega
  | cons a xs' ih =>
    intro ys hx hy h
    cases ys with
    | nil =>
      exfalso
      simp only [strcmp] at h
      have ha : a ≠ 0 := hx a (List.mem_cons_self a xs')
      omega
    | cons b ys' =>
      simp only [strcmp] at h
      by_cases hab : a = b
      · rw [if_neg (by simpa using hab)] at h
        have ha : a ≠ 0 := hx a (List.mem_cons_self a xs')
        rw [if_neg ha] at h
        have := ih ys' (fun x hxm => hx x (List.mem_cons_of_mem a hxm))
          (fun x hym => hy x (List.mem_cons_of_mem b hym)) h
        rw [hab, this]
      · rw [if_pos (by simpa using hab)] at h
        exfalso
        omega

theorem bsearchAux_sound (key : List Nat) (arr : List (List Nat × Int)) :
    ∀ (fuel base nmemb : Nat) (e : List Nat × Int),
      bsearchAux key arr fuel base nmemb = some e → e ∈ arr ∧ strcmp key e.1 = 0 := by
  intro fuel
  induction fuel with
  | zero =>
    intro base nmemb e h
    simp [bsearchAux] at h
  | succ f ih =>
    intro base nmemb e h
    cases nmemb with
    | zero => simp [bsearchAux] at h
    | succ m =>
      simp only [bsearchAux] at h
      rcases harr : arr.get? (base + (m + 1) / 2) with _ | e'
      · rw [harr] at h
        exact absurd h (by simp)
      · rw [harr] at h
        dsimp only at h
        by_cases h0 : strcmp key e'.1 = 0
        · rw [if_pos h0] at h
          simp only [Option.some.injEq] at h
          subst h
          exact ⟨List.get?_mem harr, h0⟩
        · rw [if_neg h0] at h
          by_cases h1 : strcmp key e'.1 > 0
          · rw [if_pos h1] at h
            exact ih _ _ e h
          · rw [if_neg h1] at h
            exact ih _ _ e h

theorem keywords_nonNul : ∀ e ∈ keywords, ∀ b ∈ e.1, b ≠ 0 := by decide

theorem keywords_short : ∀ e ∈ keywords, e.1.length < 1024 := by decide

theorem sortedChain_chain' : ∀ l, sortedChain l = true →
    List.Chain' (fun a b => strcmp a.1 b.1 < 0) l
  | [], _ => List.chain'_nil
  | [_], _ => List.chain'_singleton _
  | a :: b :: rst, h => by
    simp only [sortedChain, Bool.and_eq_true, decide_eq_true_eq] at h
    exact List.Chain'.cons h.1 (sortedChain_chain' (b :: rst) h.2)

theorem keyword_other (bs : List Nat) (hne : bs ≠ []) (hcls : ∀ b ∈ bs, kwClassP b)
    (hhead : 97 ≤ bs.headD 0 ∧ bs.headD 0 ≤ 122)
    (hmem : ¬ bs ∈ (keywords.map fun e => e.1)) :
    ((lexOnce bs).map fun r => (r.1, r.2.1.error)) = some (-1, "syntax error") := by
  have hC : CAPACITY = 1024 := rfl
  obtain ⟨hf, hferr0, hns0, hs, he, ht, hb⟩ := fastd_lex_init_spec bs false
  have hF := init_Fresh bs false
  have h40 := init_P4 bs false
  have hrest := rest_init bs false
  obtain ⟨c, t, hct⟩ := List.exists_cons_of_ne_nil hne
  obtain ⟨hlt, hcur⟩ := rest_head _ c t h40 (by rw [hrest, hct])
  have hlbs : bs.length = t.length + 1 := by rw [hct]; simp
  have hhc : 97 ≤ c ∧ c ≤ 122 := by
    rw [hct] at hhead
    simpa using hhead
  have hdisp := fastd_lex_dispatch_keyword yv0 yl0 (fastd_lex_init bs false)
    (by omega) (by rw [hcur]; exact hhc)
  have hwin : windowBytes (fastd_lex_init bs false) = bs.take (min CAPACITY bs.length) :=
    windowBytes_init bs false
  have hwlen : (bs.take (min CAPACITY bs.length)).length = min CAPACITY bs.length := by
    simp
  have hwne : bs.take (min CAPACITY bs.length) ≠ [] := by
    intro hnil
    rw [hnil] at hwlen
    simp at hwlen
    omega
  have hfuel2 : (bs.take (min CAPACITY bs.length)).length ≤ lexFuel (fastd_lex_init bs false) - 1 := by
    rw [hwlen]
    simp only [lexFuel]
    omega
  obtain ⟨yl', hscan⟩ := scan_kw_run (bs.take (min CAPACITY bs.length))
    (lexFuel (fastd_lex_init bs false) - 1)
    { yl0 with first_line := yl0.last_line, first_column := yl0.last_column + 1 }
    (fastd_lex_init bs false) hF hwin hwne hfuel2
  have htw : (((bs.take (min CAPACITY bs.length)).drop 1).takeWhile fun c =>
      decide ((97 ≤ c ∧ c ≤ 122) ∨ (48 ≤ c ∧ c ≤ 57) ∨ c = 45)) =
      (bs.take (min CAPACITY bs.length)).drop 1 :=
    takeWhile_all _ _ fun b hb => by
      have hbbs : b ∈ bs := List.take_subset _ _ (List.mem_of_mem_drop hb)
      have := hcls b hbbs
      simp only [kwClassP] at this
      simpa using this
  rw [htw] at hscan
  have htl : (fastd_lex_init bs false).tok_len + 1 +
      ((bs.take (min CAPACITY bs.length)).drop 1).length = min CAPACITY bs.length := by
    have hdl : ((bs.take (min CAPACITY bs.length)).drop 1).length =
        (bs.take (min CAPACITY bs.length)).length - 1 := by simp
    omega
  have hnz : ∀ b ∈ bs.take (min CAPACITY bs.length), b ≠ 0 := fun b hb => by
    have := hcls b (List.take_subset _ _ hb)
    simp only [kwClassP] at this
    omega
  unfold lexOnce
  rw [hdisp]
  unfold parse_keyword
  rw [if_neg (by rw [hns0]; simp)]
  rw [hscan]
  dsimp only
  rw [htl]
  rw [get_token_upd bs false (min CAPACITY bs.length) (Nat.le_refl _) hnz]
  rcases hbs : bsearchKeywords (bs.take (min CAPACITY bs.length)) keywords with _ | e
  · rfl
  · exfalso
    obtain ⟨hmemk, hzero⟩ := bsearchAux_sound _ keywords _ _ _ e hbs
    have heq : bs.take (min CAPACITY bs.length) = e.1 :=
      strcmp_eq_zero _ _ hnz (keywords_nonNul e hmemk) hzero
    by_cases hlarge : bs.length ≤ CAPACITY
    · have hmeq : min CAPACITY bs.length = bs.length := by omega
      rw [hmeq, List.take_length] at heq
      exact hmem (heq ▸ List.mem_map_of_mem (fun e => e.1) hmemk)
    · have hmeq : min CAPACITY bs.length = CAPACITY := by omega
      have hl2 : (bs.take (min CAPACITY bs.length)).length = CAPACITY := by rw [hwlen, hmeq]
      rw [heq] at hl2
      have := keywords_short e hmemk
      omega

/-- C6 counterexample: the standalone text `0` matches the class `[a-z0-9-]+` and is
not in the keyword table, yet the lexer returns `TOK_UINT` with value 0 rather than
a syntax error, refuting the claim that every non-keyword `[a-z0-9-]+` text yields
SyntaxError. -/
theorem claim_C6_counterexample :
    kwClassP 48 ∧ ¬ [48] ∈ (keywords.map fun e => e.1) ∧
    ((lexOnce [48]).map fun r => (r.1, r.2.1.uint64, r.2.1.error)) = some (TOK_UINT, 0, "") ∧
    TOK_UINT ≠ -1 := by
  refine ⟨Or.inr (Or.inl ⟨by omega, by omega⟩), by decide, by decide, by decide⟩

set_option maxRecDepth 100000 in
/-- C6 (amended): the keyword table is sorted strictly by `strcmp` on the keyword
texts, and every canonical keyword lexed standalone yields its designated token
kind; moreover every other nonempty `[a-z0-9-]able` text whose FIRST byte is a
lowercase letter (the dispatcher sends texts starting with a digit to the number
scanner instead, see the counterexample) lexes to a syntax error. -/
theorem claim_C6 :
    List.Chain' (fun a b => strcmp a.1 b.1 < 0) keywords ∧
    (∀ e ∈ keywords, ((lexOnce e.1).map fun r => r.1) = some e.2) ∧
    (∀ bs : List Nat, bs ≠ [] → (∀ b ∈ bs, kwClassP b) →
      97 ≤ bs.headD 0 ∧ bs.headD 0 ≤ 122 →
      ¬ bs ∈ (keywords.map fun e => e.1) →
      ((lexOnce bs).map fun r => (r.1, r.2.1.error)) = some (-1, "syntax error")) := by
  refine ⟨sortedChain_chain' keywords (by decide), by decide, ?_⟩
  intro bs hne hcls hhead hmem
  exact keyword_other bs hne hcls hhead hmem

/-- C6 witness: instantiating the universal part at the non-keyword text `q`. -/
theorem claim_C6_witness :
    (([113] : List Nat) ≠ [] ∧ ¬ [113] ∈ (keywords.map fun e => e.1)) ∧
    ((lexOnce [113]).map fun r => (r.1, r.2.1.error)) = some (-1, "syntax error") :=
  ⟨⟨by decide, by decide⟩,
   claim_C6.2.2 [113] (by decide)
     (fun b hb => by
       simp only [List.mem_singleton] at hb
       subst hb
       exact Or.inl ⟨by omega, by omega⟩)
     ⟨by decide, by decide⟩ (by decide)⟩

/-! ### `needspace` bookkeeping of the scanners (claims C1, C8) -/


theorem advance_needspace (s : fastd_lex_t) : (advance s).2.needspace = s.needspace := by
  by_cases h : s.start > 0
  · rw [advance_unfold_shift s h]
    split
    · rfl
    · split <;> rfl
  · rw [advance_unfold_zero s (by omega)]
    split
    · rfl
    · split <;> rfl

theorem next_needspace (yl : YYLTYPE) (s : fastd_lex_t) (m : Bool) :
    ((next yl s m).2.2).needspace = s.needspace := by
  rw [next]
  split
  · rfl
  · dsimp only
    split <;> split <;> first
      | rfl
      | (dsimp only; rw [advance_needspace])

theorem unterminated_fst (yv : YYSTYPE) (lex : fastd_lex_t) :
    (unterminated_string yv lex).1 = -1 := by
  rw [unterminated_string]
  split <;> rfl

theorem scan_num_loop_needspace : ∀ fuel (yl : YYLTYPE) (s : fastd_lex_t) b yl' s',
    scan_num_loop fuel yl s = some (b, yl', s') → s'.needspace = s.needspace
  | 0, _, _, _, _, _, h => Option.noConfusion h
  | fuel + 1, yl, s, b, yl', s', h => by
    have hpres := next_needspace yl s false
    simp only [scan_num_loop] at h
    rcases hn : next yl s false with ⟨ok, yl2, s2⟩
    rw [hn] at h
    rw [hn] at hpres
    dsimp only at h hpres
    cases ok
    · simp only [Option.some.injEq, Prod.mk.injEq] at h
      rw [← h.2.2, hpres]
    · dsimp only at h
      by_cases h46 : current s2 = 46
      · rw [if_pos h46] at h
        simp only [Option.some.injEq, Prod.mk.injEq] at h
        rw [← h.2.2, hpres]
      · rw [if_neg h46] at h
        by_cases hd : 48 ≤ current s2 ∧ current s2 ≤ 57
        · rw [if_pos hd] at h
          rw [scan_num_loop_needspace fuel yl2 s2 b yl' s' h, hpres]
        · rw [if_neg hd] at h
          simp only [Option.some.injEq, Prod.mk.injEq] at h
          rw [← h.2.2, hpres]

theorem scan4_loop_needspace : ∀ fuel (yl : YYLTYPE) (s : fastd_lex_t) yl' s',
    scan4_loop fuel yl s = some (yl', s') → s'.needspace = s.needspace
  | 0, _, _, _, _, h => Option.noConfusion h
  | fuel + 1, yl, s, yl', s', h => by
    have hpres := next_needspace yl s false
    simp only [scan4_loop] at h
    rcases hn : next yl s false with ⟨ok, yl2, s2⟩
    rw [hn] at h
    rw [hn] at hpres
    dsimp only at h hpres
    cases ok
    · simp only [Option.some.injEq, Prod.mk.injEq] at h
      rw [← h.2, hpres]
    · dsimp only at h
      by_cases hd : (48 ≤ current s2 ∧ current s2 ≤ 57) ∨ current s2 = 46
      · rw [if_pos hd] at h
        rw [scan4_loop_needspace fuel yl2 s2 yl' s' h, hpres]
      · rw [if_neg hd] at h
        simp only [Option.some.injEq, Prod.mk.injEq] at h
        rw [← h.2, hpres]

theorem parse_string_loop_sets_needspace : ∀ fuel buf (yv : YYSTYPE) (yl : YYLTYPE)
    (s : fastd_lex_t) (r : LexResult), parse_string_loop fuel buf yv yl s = some r →
    r.1 = TOK_STRING → r.2.2.2.needspace = true
  | 0, _, _, _, _, _, h, _ => Option.noConfusion h
  | fuel + 1, buf, yv, yl, s, r, h, htok => by
    simp only [parse_string_loop] at h
    rcases hn : next yl s true with ⟨ok, yl2, s2⟩
    rw [hn] at h
    cases ok
    · dsimp only at h
      obtain rfl := Option.some.inj h
      dsimp only at htok
      rw [unterminated_fst] at htok
      exact absurd htok (by decide)
    · dsimp only at h
      by_cases hq : current s2 = 34
      · rw [if_pos hq] at h
        obtain rfl := Option.some.inj h
        rfl
      · rw [if_neg hq] at h
        by_cases hb : current s2 = 92
        · rw [if_pos hb] at h
          rcases hn2 : next yl2 s2 true with ⟨ok2, yl3, s3⟩
          rw [hn2] at h
          cases ok2
          · dsimp only at h
            obtain rfl := Option.some.inj h
            dsimp only at htok
            rw [unterminated_fst] at htok
            exact absurd htok (by decide)
          · dsimp only at h
            by_cases h10 : current s3 = 10
            · rw [if_pos h10] at h
              exact parse_string_loop_sets_needspace fuel buf yv yl3 s3 r h htok
            · rw [if_neg h10] at h
              exact parse_string_loop_sets_needspace fuel (buf ++ [current s3]) yv yl3 s3 r h htok
        · rw [if_neg hb] at h
          exact parse_string_loop_sets_needspace fuel (buf ++ [current s2]) yv yl2 s2 r h htok

theorem parse_string_sets_needspace (fuel : Nat) (yv : YYSTYPE) (yl : YYLTYPE)
    (s : fastd_lex_t) (r : LexResult) (h : parse_string fuel yv yl s = some r)
    (htok : r.1 = TOK_STRING) : r.2.2.2.needspace = true := by
  rw [parse_string] at h
  split at h
  · obtain rfl := Option.some.inj h
    dsimp only [syntax_error] at htok
    exact absurd htok (by decide)
  · exact parse_string_loop_sets_needspace fuel [] yv yl s r h htok

theorem parse_ipv6_sets_needspace (fuel : Nat) (yv : YYSTYPE) (yl : YYLTYPE)
    (s : fastd_lex_t) (r : LexResult) (h : parse_ipv6_address fuel yv yl s = some r)
    (htok : r.1 = TOK_ADDR6) : r.2.2.2.needspace = true := by
  rw [parse_ipv6_address] at h
  split at h
  · obtain rfl := Option.some.inj h
    dsimp only [syntax_error] at htok
    exact absurd htok (by decide)
  · split at h
    · exact Option.noConfusion h
    · dsimp only at h
      split at h
      · split at h
        · obtain rfl := Option.some.inj h
          rfl
        · obtain rfl := Option.some.inj h
          dsimp only at htok
          exact absurd htok (by decide)
      · obtain rfl := Option.some.inj h
        dsimp only at htok
        exact absurd htok (by decide)

theorem parse_keyword_sets_needspace (fuel : Nat) (yv : YYSTYPE) (yl : YYLTYPE)
    (s : fastd_lex_t) (r : LexResult) (h : parse_keyword fuel yv yl s = some r)
    (htok : r.1 ≠ -1) : r.2.2.2.needspace = true := by
  rw [parse_keyword] at h
  split at h
  · obtain rfl := Option.some.inj h
    dsimp only at htok
    exact absurd rfl htok
  · split at h
    · exact Option.noConfusion h
    · dsimp only at h
      split at h
      · obtain rfl := Option.some.inj h
        dsimp only at htok
        exact absurd rfl htok
      · obtain rfl := Option.some.inj h
        rfl

theorem parse_ipv4_cases (fuel : Nat) (yv : YYSTYPE) (yl : YYLTYPE)
    (s : fastd_lex_t) (r : LexResult) (hns : s.needspace = false)
    (h : parse_ipv4_address fuel yv yl s = some r) :
    (r.1 = TOK_ADDR4 ∧ r.2.2.2.needspace = false) ∨
    (r.1 = -1 ∧ r.2.1.error = "invalid address" ∧ r.2.2.2.needspace = false) := by
  rw [parse_ipv4_address] at h
  split at h
  · rename_i hcond
    rw [hns] at hcond
    exact absurd hcond (by decide)
  · rcases hs4 : scan4_loop fuel yl s with _ | ⟨yl2, s2⟩
    · rw [hs4] at h
      exact Option.noConfusion h
    · rw [hs4] at h
      have hns2 : s2.needspace = false := by
        rw [scan4_loop_needspace fuel yl s yl2 s2 hs4, hns]
      dsimp only at h
      split at h
      · obtain rfl := Option.some.inj h
        exact Or.inl ⟨rfl, hns2⟩
      · obtain rfl := Option.some.inj h
        exact Or.inr ⟨rfl, rfl, hns2⟩

theorem parse_ipv4_addr4_needspace (fuel : Nat) (yv : YYSTYPE) (yl : YYLTYPE)
    (s : fastd_lex_t) (r : LexResult) (h : parse_ipv4_address fuel yv yl s = some r)
    (htok : r.1 = TOK_ADDR4) : r.2.2.2.needspace = false := by
  by_cases hns : s.needspace = true
  · rw [parse_ipv4_address, if_pos hns] at h
    obtain rfl := Option.some.inj h
    dsimp only [syntax_error] at htok
    exact absurd htok (by decide)
  · have hns' : s.needspace = false := by
      cases hb : s.needspace
      · rfl
      · exact absurd hb hns
    rcases parse_ipv4_cases fuel yv yl s r hns' h with ⟨_, hn⟩ | ⟨h1, _, _⟩
    · exact hn
    · rw [htok] at h1
      exact absurd h1 (by decide)

theorem parse_number_uint_needspace (fuel : Nat) (yv : YYSTYPE) (yl : YYLTYPE)
    (s : fastd_lex_t) (r : LexResult) (h : parse_number fuel yv yl s = some r)
    (htok : r.1 = TOK_UINT) : r.2.2.2.needspace = false := by
  rw [parse_number] at h
  split at h
  · obtain rfl := Option.some.inj h
    dsimp only [syntax_error] at htok
    exact absurd htok (by decide)
  · rename_i hcond
    have hns : s.needspace = false := by
      cases hb : s.needspace
      · rfl
      · exact absurd hb hcond
    rcases hsn : scan_num_loop fuel yl s with _ | ⟨flag, yl2, s2⟩
    · rw [hsn] at h
      exact Option.noConfusion h
    · rw [hsn] at h
      have hns2 : s2.needspace = false := by
        rw [scan_num_loop_needspace fuel yl s flag yl2 s2 hsn, hns]
      cases flag
      · dsimp only at h
        split at h
        · obtain rfl := Option.some.inj h
          exact hns2
        · obtain rfl := Option.some.inj h
          dsimp only at htok
          exact absurd htok (by decide)
      · dsimp only at h
        rcases parse_ipv4_cases fuel yv yl2 s2 r hns2 h with ⟨h1, _⟩ | ⟨h1, _, _⟩
        · rw [htok] at h1
          exact absurd h1 (by decide)
        · rw [htok] at h1
          exact absurd h1 (by decide)

/-- C1 counterexample: the input `1""` places a STRING immediately after a UINT,
yet the first pull returns `TOK_UINT` with `needspace` still `false` (the UINT
path performs no `consume`), so the second pull succeeds with `TOK_STRING`
instead of failing with a syntax error. -/
theorem claim_C1_counterexample :
    ((lexOnce [49, 34, 34]).map fun r => (r.1, r.2.1.uint64, r.2.2.2.needspace)) =
      some (TOK_UINT, 1, false) ∧
    ((lexTwice [49, 34, 34]).map fun r => (r.1, r.2.1.str)) = some (TOK_STRING, []) ∧
    TOK_STRING ≠ -1 := by
  refine ⟨by decide, by decide, by decide⟩

/-- C1 (amended): the STRING, ADDR6 and keyword scanners set `needspace = true`
on every successful token, and for adjacent word-like pairs through those paths
(e.g. `yes""`) the second token fails with a syntax error; but the UINT and
ADDR4 paths return with `needspace` still `false` (no `consume` on success), so
the claimed "every word-like token" contract does not hold there (see the
counterexample). -/
theorem claim_C1 :
    (∀ fuel yv yl s r, parse_string fuel yv yl s = some r → r.1 = TOK_STRING →
        r.2.2.2.needspace = true) ∧
    (∀ fuel yv yl s r, parse_ipv6_address fuel yv yl s = some r → r.1 = TOK_ADDR6 →
        r.2.2.2.needspace = true) ∧
    (∀ fuel yv yl s r, parse_keyword fuel yv yl s = some r → r.1 ≠ -1 →
        r.2.2.2.needspace = true) ∧
    (∀ fuel yv yl s r, parse_number fuel yv yl s = some r → r.1 = TOK_UINT →
        r.2.2.2.needspace = false) ∧
    (∀ fuel yv yl s r, parse_ipv4_address fuel yv yl s = some r → r.1 = TOK_ADDR4 →
        r.2.2.2.needspace = false) ∧
    ((lexOnce [121, 101, 115, 34, 34]).map fun r => (r.1, r.2.2.2.needspace)) =
      some (TOK_YES, true) ∧
    ((lexTwice [121, 101, 115, 34, 34]).map fun r => (r.1, r.2.1.error)) =
      some (-1, "syntax error") := by
  refine ⟨parse_string_sets_needspace, parse_ipv6_sets_needspace,
    parse_keyword_sets_needspace, parse_number_uint_needspace,
    parse_ipv4_addr4_needspace, by decide, by decide⟩

/-- C1 witness: the first universal conjunct applied to a concrete successful
string-scanner call. -/
theorem claim_C1_witness :
    ((parse_string 100 yv0 yl0 (fastd_lex_init [34, 34] false)).map fun r => r.1) =
      some TOK_STRING ∧
    ((parse_string 100 yv0 yl0 (fastd_lex_init [34, 34] false)).map
      fun r => r.2.2.2.needspace) = some true := by
  have hmap : ((parse_string 100 yv0 yl0 (fastd_lex_init [34, 34] false)).map
      fun r => r.1) = some TOK_STRING := by decide
  refine ⟨hmap, ?_⟩
  rcases hp : parse_string 100 yv0 yl0 (fastd_lex_init [34, 34] false) with _ | r
  · rw [hp] at hmap
    exact Option.noConfusion hmap
  · rw [hp] at hmap
    simp only [Option.map_some', Option.some.injEq] at hmap
    have hns := claim_C1.1 100 yv0 yl0 (fastd_lex_init [34, 34] false) r hp hmap
    simp only [Option.map_some', hns]

/-- Claim C8: whenever the digit scan of `parse_number` runs from a state that
passed the `needspace` check and transfers control to the IPv4 sub-scanner (a
`.` under the cursor), the sub-scanner never takes its `needspace` syntax-error
branch: the pull ends in `TOK_ADDR4` or in the `invalid address` error. -/
theorem claim_C8 (fuel : Nat) (yv : YYSTYPE) (yl yl2 : YYLTYPE) (s s2 : fastd_lex_t)
    (flag : Bool) (r : LexResult) (hns : s.needspace = false)
    (hscan : scan_num_loop fuel yl s = some (flag, yl2, s2))
    (hp : parse_ipv4_address fuel yv yl2 s2 = some r) :
    r.1 = TOK_ADDR4 ∨ (r.1 = -1 ∧ r.2.1.error = "invalid address") := by
  have hns2 : s2.needspace = false := by
    rw [scan_num_loop_needspace fuel yl s flag yl2 s2 hscan, hns]
  rcases parse_ipv4_cases fuel yv yl2 s2 r hns2 hp with ⟨h1, _⟩ | ⟨h1, h2, _⟩
  · exact Or.inl h1
  · exact Or.inr ⟨h1, h2⟩

/-- C8 witness: scanning `1.2` transfers to the IPv4 sub-scanner, which reports
`invalid address` (and in particular no `needspace` syntax error). -/
theorem claim_C8_witness :
    ((scan_num_loop 10 yl0 (fastd_lex_init [49, 46, 50] false)).bind
        fun p => (parse_ipv4_address 10 yv0 p.2.1 p.2.2).map
          fun r => decide (r.1 = TOK_ADDR4 ∨ (r.1 = -1 ∧ r.2.1.error = "invalid address"))) =
      some true := by
  rcases hscan : scan_num_loop 10 yl0 (fastd_lex_init [49, 46, 50] false) with _ | ⟨flag, yl2, s2⟩
  · have hs : (scan_num_loop 10 yl0 (fastd_lex_init [49, 46, 50] false)).isSome = true := by
      decide
    rw [hscan] at hs
    simp at hs
  · rcases hp : parse_ipv4_address 10 yv0 yl2 s2 with _ | r
    · have hs : ((scan_num_loop 10 yl0 (fastd_lex_init [49, 46, 50] false)).bind
          fun p => (parse_ipv4_address 10 yv0 p.2.1 p.2.2).map fun r => r.1).isSome = true := by
        decide
      rw [hscan] at hs
      dsimp only [Option.bind] at hs
      rw [hp] at hs
      simp at hs
    · have hres := claim_C8 10 yv0 yl0 yl2 (fastd_lex_init [49, 46, 50] false) s2 flag r
        (by decide) hscan hp
      dsimp only [Option.bind]
      rw [hp]
      simp only [Option.map_some', Option.some.injEq]
      exact decide_eq_true hres

/-- Claim C9: with `needspace` set, a pull whose cursor byte routes to any
word-like scanner (string, IPv6, number, keyword) returns the syntax error
immediately; the returned state is the argument state itself (window indices
and `needspace` untouched), and the location record keeps its `last_line` /
`last_column` (only the token-start fields are captured). -/
theorem claim_C9 (yv : YYSTYPE) (yl : YYLTYPE) (s : fastd_lex_t)
    (hns : s.needspace = true) (hgt : s.start < s.end_) (hw : wordlikeByte (current s)) :
    fastd_lex yv yl s =
      some (-1, { yv with error := "syntax error" },
        { yl with first_line := yl.last_line, first_column := yl.last_column + 1 }, s) := by
  rcases hw with h34 | h91 | hd | hk
  · rw [fastd_lex_dispatch_string yv yl s hgt h34]
    exact parse_string_needspace _ _ _ _ hns
  · rw [fastd_lex_dispatch_ipv6 yv yl s hgt h91]
    exact parse_ipv6_needspace _ _ _ _ hns
  · rw [fastd_lex_dispatch_number yv yl s hgt hd]
    exact parse_number_needspace _ _ _ _ hns
  · rw [fastd_lex_dispatch_keyword yv yl s hgt hk]
    exact parse_keyword_needspace _ _ _ _ hns

/-- C9 witness: a state holding an unseparated `"` with `needspace` set is
rejected with the location counters preserved. -/
theorem claim_C9_witness :
    ((fastd_lex yv0 yl0 ⟨[], false, true, 0, 1, 0, fun _ => 34⟩).map
      fun r => (r.1, r.2.1.error, r.2.2.1.last_line, r.2.2.1.last_column,
        r.2.2.2.needspace, r.2.2.2.start, r.2.2.2.end_)) =
      some (-1, "syntax error", 1, 0, true, 0, 1) := by
  rw [claim_C9 yv0 yl0 ⟨[], false, true, 0, 1, 0, fun _ => 34⟩ (by decide) (by decide)
    (Or.inl (by decide))]
  rfl

/-- Claim C10: when the input ends immediately after a `/` byte, the pull takes
the comment dispatch, fails to obtain a second byte, and returns the plain
syntax error — token -1 with message `syntax error`, which is neither an
unterminated-literal message nor the clean end-of-input token 0. -/
theorem claim_C10 (yv : YYSTYPE) (yl : YYLTYPE) (s : fastd_lex_t)
    (ht : s.tok_len = 0) (hcur : current s = 47) (hend : s.start + 1 = s.end_)
    (hfile : s.file = []) :
    ∃ s', fastd_lex yv yl s =
      some (-1, { yv with error := "syntax error" },
        { first_line := yl.last_line, first_column := yl.last_column + 1,
          last_line := yl.last_line, last_column := yl.last_column + 1 }, s') := by
  have hgt : s.end_ > s.start := by omega
  unfold fastd_lex
  obtain ⟨m, hm, _⟩ := lexFuel_pos s
  rw [hm]
  simp only [fastd_lexF]
  rw [if_pos hgt]
  rw [hcur]
  rw [if_neg (by decide : ¬((47:Nat) = 32 ∨ (47:Nat) = 10 ∨ (47:Nat) = 9 ∨ (47:Nat) = 13))]
  rw [if_neg (by decide : ¬((47:Nat) = 59 ∨ (47:Nat) = 58 ∨ (47:Nat) = 123 ∨ (47:Nat) = 125))]
  rw [if_pos (show (47:Nat) = 47 from rfl)]
  rw [next_unfold_true _ s (by omega)]
  rw [if_pos (show s.start + 1 + s.tok_len ≥ s.end_ by omega)]
  rw [advance_unfold_shift _ (by dsimp only; omega)]
  dsimp only
  rw [show s.end_ - (s.start + 1) = 0 by omega]
  rw [if_neg (show ¬ (0:Nat) = CAPACITY by decide)]
  rw [hfile]
  simp only [List.length_nil, Nat.min_zero, if_true]
  rw [hcur]
  rw [if_neg (by decide : ¬ (47:Nat) = 10)]
  exact ⟨_, rfl⟩

/-- C10 witness: a pull on the one-byte input `/` is the syntax error. -/
theorem claim_C10_witness :
    ((fastd_lex yv0 yl0 (fastd_lex_init [47] false)).map fun r => (r.1, r.2.1.error)) =
      some (-1, "syntax error") := by
  obtain ⟨s', hs⟩ := claim_C10 yv0 yl0 (fastd_lex_init [47] false) (by decide) (by decide)
    (by decide) (by decide)
  rw [hs]
  rfl

theorem consume_comment_loop_unterminated : ∀ fuel (yv : YYSTYPE) (yl : YYLTYPE)
    (s : fastd_lex_t) (prev : Nat) (r : LexResult),
    consume_comment_loop fuel yv yl s prev = some r → r.1 = -1 →
    r.2.1.error = "unterminated block comment" → r.2.2.2.ferr = false
  | 0, _, _, _, _, _, h, _, _ => Option.noConfusion h
  | fuel + 1, yv, yl, s, prev, r, h, htok, herr => by
    simp only [consume_comment_loop] at h
    rcases hn : next yl s true with ⟨ok, yl2, s2⟩
    rw [hn] at h
    cases ok
    · dsimp only at h
      by_cases hf : s2.ferr = true
      · rw [if_pos hf] at h
        obtain rfl := Option.some.inj h
        dsimp only [io_error] at herr
        exact absurd herr (by decide)
      · rw [if_neg hf] at h
        obtain rfl := Option.some.inj h
        simp only [Bool.not_eq_true] at hf
        exact hf
    · dsimp only at h
      by_cases hp : prev = 42 ∧ current s2 = 47
      · rw [if_pos hp] at h
        obtain rfl := Option.some.inj h
        dsimp only at htok
        exact absurd htok (by decide)
      · rw [if_neg hp] at h
        exact consume_comment_loop_unterminated fuel yv yl2 s2 (current s2) r h htok herr

theorem parse_string_loop_unterminated : ∀ fuel buf (yv : YYSTYPE) (yl : YYLTYPE)
    (s : fastd_lex_t) (r : LexResult),
    parse_string_loop fuel buf yv yl s = some r → r.1 = -1 →
    r.2.1.error = "unterminated string" → r.2.2.2.ferr = false
  | 0, _, _, _, _, _, h, _, _ => Option.noConfusion h
  | fuel + 1, buf, yv, yl, s, r, h, htok, herr => by
    simp only [parse_string_loop] at h
    rcases hn : next yl s true with ⟨ok, yl2, s2⟩
    rw [hn] at h
    cases ok
    · dsimp only at h
      obtain rfl := Option.some.inj h
      dsimp only at herr
      rw [unterminated_string] at herr
      split at herr
      · rename_i hf
        dsimp only [io_error] at herr
        exact absurd herr (by decide)
      · rename_i hf
        simp only [Bool.not_eq_true] at hf
        exact hf
    · dsimp only at h
      by_cases hq : current s2 = 34
      · rw [if_pos hq] at h
        obtain rfl := Option.some.inj h
        dsimp only at htok
        exact absurd htok (by decide)
      · rw [if_neg hq] at h
        by_cases hb : current s2 = 92
        · rw [if_pos hb] at h
          rcases hn2 : next yl2 s2 true with ⟨ok2, yl3, s3⟩
          rw [hn2] at h
          cases ok2
          · dsimp only at h
            obtain rfl := Option.some.inj h
            dsimp only at herr
            rw [unterminated_string] at herr
            split at herr
            · rename_i hf
              dsimp only [io_error] at herr
              exact absurd herr (by decide)
            · rename_i hf
              simp only [Bool.not_eq_true] at hf
              exact hf
          · dsimp only at h
            by_cases h10 : current s3 = 10
            · rw [if_pos h10] at h
              exact parse_string_loop_unterminated fuel buf yv yl3 s3 r h htok herr
            · rw [if_neg h10] at h
              exact parse_string_loop_unterminated fuel (buf ++ [current s3]) yv yl3 s3 r h htok herr
        · rw [if_neg hb] at h
          exact parse_string_loop_unterminated fuel (buf ++ [current s2]) yv yl2 s2 r h htok herr

/-- Claim C5: ending the input inside a string literal or a block comment
yields the respective unterminated-literal error, and the stream error state
takes precedence: `unterminated_string` returns the I/O error whenever `ferr`
is set, and both scanners can produce their unterminated message only with
`ferr` clear; concretely, `"unt` and `/* u` give the unterminated errors on a
clean stream and the I/O error on an erroring stream. -/
theorem claim_C5 :
    (∀ (yv : YYSTYPE) (s : fastd_lex_t), s.ferr = true →
        unterminated_string yv s = io_error yv) ∧
    (∀ fuel buf (yv : YYSTYPE) (yl : YYLTYPE) (s : fastd_lex_t) (r : LexResult),
        parse_string_loop fuel buf yv yl s = some r → r.1 = -1 →
        r.2.1.error = "unterminated string" → r.2.2.2.ferr = false) ∧
    (∀ fuel (yv : YYSTYPE) (yl : YYLTYPE) (s : fastd_lex_t) (prev : Nat) (r : LexResult),
        consume_comment_loop fuel yv yl s prev = some r → r.1 = -1 →
        r.2.1.error = "unterminated block comment" → r.2.2.2.ferr = false) ∧
    ((lexOnce [34, 117, 110, 116]).map fun r => (r.1, r.2.1.error)) =
      some (-1, "unterminated string") ∧
    ((lexOnce [47, 42, 32, 117]).map fun r => (r.1, r.2.1.error)) =
      some (-1, "unterminated block comment") ∧
    ((lexOnceErr [34, 117, 110, 116]).map fun r => (r.1, r.2.1.error)) =
      some (-1, "I/O error") ∧
    ((lexOnceErr [47, 42, 32, 117]).map fun r => (r.1, r.2.1.error)) =
      some (-1, "I/O error") := by
  refine ⟨?_, parse_string_loop_unterminated, consume_comment_loop_unterminated,
    by decide, by decide, by decide, by decide⟩
  intro yv s h
  rw [unterminated_string, if_pos h]

/-- C5 witness: the precedence conjunct applied to a concrete erroring state. -/
theorem claim_C5_witness :
    (fastd_lex_init [] true).ferr = true ∧
    unterminated_string yv0 (fastd_lex_init [] true) = io_error yv0 :=
  ⟨by decide, claim_C5.1 yv0 (fastd_lex_init [] true) (by decide)⟩

/-! ### The window invariant (claim C7) -/


theorem advance_lexInv (s : fastd_lex_t) (h : lexInv s) : lexInv (advance s).2 := by
  obtain ⟨h1, h2, h3⟩ := h
  by_cases hs : s.start > 0
  · rw [advance_unfold_shift s hs]
    split
    · exact ⟨Nat.le_add_right _ _, by dsimp only; omega, by dsimp only; omega⟩
    · split
      · exact ⟨Nat.le_add_right _ _, by dsimp only; omega, by dsimp only; omega⟩
      · refine ⟨Nat.le_add_right _ _, by dsimp only; omega, ?_⟩
        have hm := Nat.min_le_left (CAPACITY - (s.end_ - s.start)) s.file.length
        dsimp only
        omega
  · rw [advance_unfold_zero s (by omega)]
    split
    · exact ⟨Nat.le_add_right _ _, by dsimp only; omega, by dsimp only; omega⟩
    · split
      · exact ⟨Nat.le_add_right _ _, by dsimp only; omega, by dsimp only; omega⟩
      · refine ⟨Nat.le_add_right _ _, by dsimp only; omega, ?_⟩
        have hm := Nat.min_le_left (CAPACITY - s.end_) s.file.length
        dsimp only
        omega

theorem consume_lexInv (s : fastd_lex_t) (b : Bool) (h : lexInv s) : lexInv (consume s b) := by
  obtain ⟨h1, h2, h3⟩ := h
  exact ⟨Nat.le_add_right _ _, by dsimp only [consume]; omega, by dsimp only [consume]; omega⟩

theorem next_lexInv (yl : YYLTYPE) (s : fastd_lex_t) (m : Bool) (h : lexInv s) :
    lexInv (next yl s m).2.2 := by
  obtain ⟨h1, h2, h3⟩ := h
  rw [next]
  split
  · exact ⟨h1, h2, h3⟩
  · dsimp only
    split <;> split <;> dsimp only <;> first
      | exact advance_lexInv _ ⟨Nat.le_add_right _ _, by dsimp only; omega, by dsimp only; omega⟩
      | exact ⟨Nat.le_add_right _ _, by dsimp only; omega, by dsimp only; omega⟩

theorem init_lexInv (bytes : List Nat) (e : Bool) : lexInv (fastd_lex_init bytes e) := by
  obtain ⟨hf, hferr, hns, hs, he, ht, hb⟩ := fastd_lex_init_spec bytes e
  have hm := Nat.min_le_left CAPACITY bytes.length
  exact ⟨Nat.le_add_right _ _, by omega, by omega⟩

theorem scan6_loop_lexInv : ∀ fuel (yl : YYLTYPE) (s : fastd_lex_t) yl' s',
    scan6_loop fuel yl s = some (yl', s') → lexInv s → lexInv s'
  | 0, _, _, _, _, h, _ => Option.noConfusion h
  | fuel + 1, yl, s, yl', s', h, hinv => by
    simp only [scan6_loop] at h
    rcases hn : next yl s false with ⟨ok, yl2, s2⟩
    rw [hn] at h
    have hs2 : lexInv s2 := by
      have := next_lexInv yl s false hinv
      rw [hn] at this
      exact this
    cases ok
    · dsimp only at h
      simp only [Option.some.injEq, Prod.mk.injEq] at h
      rw [← h.2]
      exact hs2
    · dsimp only at h
      by_cases hd : (48 ≤ current s2 ∧ current s2 ≤ 57) ∨ current s2 = 58
      · rw [if_pos hd] at h
        exact scan6_loop_lexInv fuel yl2 s2 yl' s' h hs2
      · rw [if_neg hd] at h
        simp only [Option.some.injEq, Prod.mk.injEq] at h
        rw [← h.2]
        exact hs2

theorem scan4_loop_lexInv : ∀ fuel (yl : YYLTYPE) (s : fastd_lex_t) yl' s',
    scan4_loop fuel yl s = some (yl', s') → lexInv s → lexInv s'
  | 0, _, _, _, _, h, _ => Option.noConfusion h
  | fuel + 1, yl, s, yl', s', h, hinv => by
    simp only [scan4_loop] at h
    rcases hn : next yl s false with ⟨ok, yl2, s2⟩
    rw [hn] at h
    have hs2 : lexInv s2 := by
      have := next_lexInv yl s false hinv
      rw [hn] at this
      exact this
    cases ok
    · dsimp only at h
      simp only [Option.some.injEq, Prod.mk.injEq] at h
      rw [← h.2]
      exact hs2
    · dsimp only at h
      by_cases hd : (48 ≤ current s2 ∧ current s2 ≤ 57) ∨ current s2 = 46
      · rw [if_pos hd] at h
        exact scan4_loop_lexInv fuel yl2 s2 yl' s' h hs2
      · rw [if_neg hd] at h
        simp only [Option.some.injEq, Prod.mk.injEq] at h
        rw [← h.2]
        exact hs2

theorem scan_num_loop_lexInv : ∀ fuel (yl : YYLTYPE) (s : fastd_lex_t) b yl' s',
    scan_num_loop fuel yl s = some (b, yl', s') → lexInv s → lexInv s'
  | 0, _, _, _, _, _, h, _ => Option.noConfusion h
  | fuel + 1, yl, s, b, yl', s', h, hinv => by
    simp only [scan_num_loop] at h
    rcases hn : next yl s false with ⟨ok, yl2, s2⟩
    rw [hn] at h
    have hs2 : lexInv s2 := by
      have := next_lexInv yl s false hinv
      rw [hn] at this
      exact this
    cases ok
    · dsimp only at h
      simp only [Option.some.injEq, Prod.mk.injEq] at h
      rw [← h.2.2]
      exact hs2
    · dsimp only at h
      by_cases h46 : current s2 = 46
      · rw [if_pos h46] at h
        simp only [Option.some.injEq, Prod.mk.injEq] at h
        rw [← h.2.2]
        exact hs2
      · rw [if_neg h46] at h
        by_cases hd : 48 ≤ current s2 ∧ current s2 ≤ 57
        · rw [if_pos hd] at h
          exact scan_num_loop_lexInv fuel yl2 s2 b yl' s' h hs2
        · rw [if_neg hd] at h
          simp only [Option.some.injEq, Prod.mk.injEq] at h
          rw [← h.2.2]
          exact hs2

theorem scan_kw_loop_lexInv : ∀ fuel (yl : YYLTYPE) (s : fastd_lex_t) yl' s',
    scan_kw_loop fuel yl s = some (yl', s') → lexInv s → lexInv s'
  | 0, _, _, _, _, h, _ => Option.noConfusion h
  | fuel + 1, yl, s, yl', s', h, hinv => by
    simp only [scan_kw_loop] at h
    rcases hn : next yl s false with ⟨ok, yl2, s2⟩
    rw [hn] at h
    have hs2 : lexInv s2 := by
      have := next_lexInv yl s false hinv
      rw [hn] at this
      exact this
    cases ok
    · dsimp only at h
      simp only [Option.some.injEq, Prod.mk.injEq] at h
      rw [← h.2]
      exact hs2
    · dsimp only at h
      by_cases hd : (97 ≤ current s2 ∧ current s2 ≤ 122) ∨
          (48 ≤ current s2 ∧ current s2 ≤ 57) ∨ current s2 = 45
      · rw [if_pos hd] at h
        exact scan_kw_loop_lexInv fuel yl2 s2 yl' s' h hs2
      · rw [if_neg hd] at h
        simp only [Option.some.injEq, Prod.mk.injEq] at h
        rw [← h.2]
        exact hs2

theorem line_comment_loop_lexInv : ∀ fuel (yl : YYLTYPE) (s : fastd_lex_t) yl' s',
    line_comment_loop fuel yl s = some (yl', s') → lexInv s → lexInv s'
  | 0, _, _, _, _, h, _ => Option.noConfusion h
  | fuel + 1, yl, s, yl', s', h, hinv => by
    simp only [line_comment_loop] at h
    rcases hn : next yl s true with ⟨ok, yl2, s2⟩
    rw [hn] at h
    have hs2 : lexInv s2 := by
      have := next_lexInv yl s true hinv
      rw [hn] at this
      exact this
    cases ok
    · dsimp only at h
      simp only [Option.some.injEq, Prod.mk.injEq] at h
      rw [← h.2]
      exact hs2
    · dsimp only at h
      by_cases h10 : current s2 = 10
      · rw [if_pos h10] at h
        simp only [Option.some.injEq, Prod.mk.injEq] at h
        rw [← h.2]
        exact hs2
      · rw [if_neg h10] at h
        exact line_comment_loop_lexInv fuel yl2 s2 yl' s' h hs2

theorem consume_comment_loop_lexInv : ∀ fuel (yv : YYSTYPE) (yl : YYLTYPE)
    (s : fastd_lex_t) (prev : Nat) (r : LexResult),
    consume_comment_loop fuel yv yl s prev = some r → lexInv s → lexInv r.2.2.2
  | 0, _, _, _, _, _, h, _ => Option.noConfusion h
  | fuel + 1, yv, yl, s, prev, r, h, hinv => by
    simp only [consume_comment_loop] at h
    rcases hn : next yl s true with ⟨ok, yl2, s2⟩
    rw [hn] at h
    have hs2 : lexInv s2 := by
      have := next_lexInv yl s true hinv
      rw [hn] at this
      exact this
    cases ok
    · dsimp only at h
      by_cases hf : s2.ferr = true
      · rw [if_pos hf] at h
        obtain rfl := Option.some.inj h
        exact hs2
      · rw [if_neg hf] at h
        obtain rfl := Option.some.inj h
        exact hs2
    · dsimp only at h
      by_cases hp : prev = 42 ∧ current s2 = 47
      · rw [if_pos hp] at h
        obtain rfl := Option.some.inj h
        exact consume_lexInv _ false (next_lexInv yl2 s2 true hs2)
      · rw [if_neg hp] at h
        exact consume_comment_loop_lexInv fuel yv yl2 s2 (current s2) r h hs2

theorem parse_string_loop_lexInv : ∀ fuel buf (yv : YYSTYPE) (yl : YYLTYPE)
    (s : fastd_lex_t) (r : LexResult),
    parse_string_loop fuel buf yv yl s = some r → lexInv s → lexInv r.2.2.2
  | 0, _, _, _, _, _, h, _ => Option.noConfusion h
  | fuel + 1, buf, yv, yl, s, r, h, hinv => by
    simp only [parse_string_loop] at h
    rcases hn : next yl s true with ⟨ok, yl2, s2⟩
    rw [hn] at h
    have hs2 : lexInv s2 := by
      have := next_lexInv yl s true hinv
      rw [hn] at this
      exact this
    cases ok
    · dsimp only at h
      obtain rfl := Option.some.inj h
      exact hs2
    · dsimp only at h
      by_cases hq : current s2 = 34
      · rw [if_pos hq] at h
        obtain rfl := Option.some.inj h
        exact consume_lexInv _ true (next_lexInv yl2 s2 true hs2)
      · rw [if_neg hq] at h
        by_cases hb92 : current s2 = 92
        · rw [if_pos hb92] at h
          rcases hn2 : next yl2 s2 true with ⟨ok2, yl3, s3⟩
          rw [hn2] at h
          have hs3 : lexInv s3 := by
            have := next_lexInv yl2 s2 true hs2
            rw [hn2] at this
            exact this
          cases ok2
          · dsimp only at h
            obtain rfl := Option.some.inj h
            exact hs3
          · dsimp only at h
            by_cases h10 : current s3 = 10
            · rw [if_pos h10] at h
              exact parse_string_loop_lexInv fuel buf yv yl3 s3 r h hs3
            · rw [if_neg h10] at h
              exact parse_string_loop_lexInv fuel (buf ++ [current s3]) yv yl3 s3 r h hs3
        · rw [if_neg hb92] at h
          exact parse_string_loop_lexInv fuel (buf ++ [current s2]) yv yl2 s2 r h hs2

theorem parse_string_lexInv (fuel : Nat) (yv : YYSTYPE) (yl : YYLTYPE) (s : fastd_lex_t)
    (r : LexResult) (h : parse_string fuel yv yl s = some r) (hinv : lexInv s) :
    lexInv r.2.2.2 := by
  rw [parse_string] at h
  split at h
  · obtain rfl := Option.some.inj h
    exact hinv
  · exact parse_string_loop_lexInv fuel [] yv yl s r h hinv

theorem parse_ipv6_lexInv (fuel : Nat) (yv : YYSTYPE) (yl : YYLTYPE) (s : fastd_lex_t)
    (r : LexResult) (h : parse_ipv6_address fuel yv yl s = some r) (hinv : lexInv s) :
    lexInv r.2.2.2 := by
  rw [parse_ipv6_address] at h
  split at h
  · obtain rfl := Option.some.inj h
    exact hinv
  · rcases hs6 : scan6_loop fuel yl s with _ | ⟨yl2, s2⟩
    · rw [hs6] at h
      exact Option.noConfusion h
    · rw [hs6] at h
      have hs2 := scan6_loop_lexInv fuel yl s yl2 s2 hs6 hinv
      dsimp only at h
      split at h
      · split at h
        · obtain rfl := Option.some.inj h
          exact consume_lexInv _ true (next_lexInv _ _ true hs2)
        · obtain rfl := Option.some.inj h
          exact hs2
      · obtain rfl := Option.some.inj h
        exact hs2

theorem parse_ipv4_lexInv (fuel : Nat) (yv : YYSTYPE) (yl : YYLTYPE) (s : fastd_lex_t)
    (r : LexResult) (h : parse_ipv4_address fuel yv yl s = some r) (hinv : lexInv s) :
    lexInv r.2.2.2 := by
  rw [parse_ipv4_address] at h
  split at h
  · obtain rfl := Option.some.inj h
    exact hinv
  · rcases hs4 : scan4_loop fuel yl s with _ | ⟨yl2, s2⟩
    · rw [hs4] at h
      exact Option.noConfusion h
    · rw [hs4] at h
      have hs2 := scan4_loop_lexInv fuel yl s yl2 s2 hs4 hinv
      dsimp only at h
      split at h
      · obtain rfl := Option.some.inj h
        exact hs2
      · obtain rfl := Option.some.inj h
        exact hs2

theorem parse_number_lexInv (fuel : Nat) (yv : YYSTYPE) (yl : YYLTYPE) (s : fastd_lex_t)
    (r : LexResult) (h : parse_number fuel yv yl s = some r) (hinv : lexInv s) :
    lexInv r.2.2.2 := by
  rw [parse_number] at h
  split at h
  · obtain rfl := Option.some.inj h
    exact hinv
  · rcases hsn : scan_num_loop fuel yl s with _ | ⟨flag, yl2, s2⟩
    · rw [hsn] at h
      exact Option.noConfusion h
    · rw [hsn] at h
      have hs2 := scan_num_loop_lexInv fuel yl s flag yl2 s2 hsn hinv
      cases flag
      · dsimp only at h
        split at h
        · obtain rfl := Option.some.inj h
          exact hs2
        · obtain rfl := Option.some.inj h
          exact hs2
      · dsimp only at h
        exact parse_ipv4_lexInv fuel yv yl2 s2 r h hs2

theorem parse_keyword_lexInv (fuel : Nat) (yv : YYSTYPE) (yl : YYLTYPE) (s : fastd_lex_t)
    (r : LexResult) (h : parse_keyword fuel yv yl s = some r) (hinv : lexInv s) :
    lexInv r.2.2.2 := by
  rw [parse_keyword] at h
  split at h
  · obtain rfl := Option.some.inj h
    exact hinv
  · rcases hsk : scan_kw_loop fuel yl s with _ | ⟨yl2, s2⟩
    · rw [hsk] at h
      exact Option.noConfusion h
    · rw [hsk] at h
      have hs2 := scan_kw_loop_lexInv fuel yl s yl2 s2 hsk hinv
      dsimp only at h
      split at h
      · obtain rfl := Option.some.inj h
        exact hs2
      · obtain rfl := Option.some.inj h
        exact consume_lexInv _ true hs2

theorem fastd_lexF_lexInv : ∀ fuel (yv : YYSTYPE) (yl : YYLTYPE) (s : fastd_lex_t)
    (r : LexResult), fastd_lexF fuel yv yl s = some r → lexInv s → lexInv r.2.2.2
  | 0, _, _, _, _, h, _ => Option.noConfusion h
  | fuel + 1, yv, yl, s, r, h, hinv => by
    simp only [fastd_lexF] at h
    by_cases hgt : s.end_ > s.start
    · rw [if_pos hgt] at h
      by_cases h1 : current s = 32 ∨ current s = 10 ∨ current s = 9 ∨ current s = 13
      · rw [if_pos h1] at h
        exact fastd_lexF_lexInv fuel yv _ _ r h (consume_lexInv _ false (next_lexInv _ s true hinv))
      · rw [if_neg h1] at h
        by_cases h2 : current s = 59 ∨ current s = 58 ∨ current s = 123 ∨ current s = 125
        · rw [if_pos h2] at h
          obtain rfl := Option.some.inj h
          exact consume_lexInv _ false (next_lexInv _ s true hinv)
        · rw [if_neg h2] at h
          by_cases h3 : current s = 47
          · rw [if_pos h3] at h
            rcases hn : next { yl with first_line := yl.last_line, first_column := yl.last_column + 1 } s true with ⟨ok, yl2, s2⟩
            rw [hn] at h
            have hs2 : lexInv s2 := by
              have := next_lexInv { yl with first_line := yl.last_line, first_column := yl.last_column + 1 } s true hinv
              rw [hn] at this
              exact this
            cases ok
            · dsimp only at h
              obtain rfl := Option.some.inj h
              exact hs2
            · dsimp only at h
              by_cases h42 : current s2 = 42
              · rw [if_pos h42] at h
                rcases hcc : consume_comment fuel yv yl2 s2 with _ | ⟨t, yv2, yl3, s3⟩
                · rw [hcc] at h
                  exact Option.noConfusion h
                · rw [hcc] at h
                  dsimp only at h
                  have hs3 : lexInv s3 := by
                    have := consume_comment_loop_lexInv fuel yv yl2 s2 0 (t, yv2, yl3, s3)
                      (by rw [← hcc]; rfl) hs2
                    exact this
                  by_cases ht0 : t ≠ 0
                  · rw [if_pos ht0] at h
                    obtain rfl := Option.some.inj h
                    exact hs3
                  · rw [if_neg ht0] at h
                    exact fastd_lexF_lexInv fuel yv2 yl3 s3 r h hs3
              · rw [if_neg h42] at h
                by_cases h47 : current s2 ≠ 47
                · rw [if_pos h47] at h
                  obtain rfl := Option.some.inj h
                  exact hs2
                · rw [if_neg h47] at h
                  rcases hlc : line_comment_loop fuel yl2 s2 with _ | ⟨yl3, s3⟩
                  · rw [hlc] at h
                    exact Option.noConfusion h
                  · rw [hlc] at h
                    dsimp only at h
                    have hs3 := line_comment_loop_lexInv fuel yl2 s2 yl3 s3 hlc hs2
                    exact fastd_lexF_lexInv fuel yv _ _ r h
                      (consume_lexInv _ false (next_lexInv yl3 s3 true hs3))
          · rw [if_neg h3] at h
            by_cases h35 : current s = 35
            · rw [if_pos h35] at h
              rcases hlc : line_comment_loop fuel { yl with first_line := yl.last_line, first_column := yl.last_column + 1 } s with _ | ⟨yl3, s3⟩
              · rw [hlc] at h
                exact Option.noConfusion h
              · rw [hlc] at h
                dsimp only at h
                have hs3 := line_comment_loop_lexInv fuel _ s yl3 s3 hlc hinv
                exact fastd_lexF_lexInv fuel yv _ _ r h
                  (consume_lexInv _ false (next_lexInv yl3 s3 true hs3))
            · rw [if_neg h35] at h
              by_cases h34 : current s = 34
              · rw [if_pos h34] at h
                exact parse_string_lexInv fuel yv _ s r h hinv
              · rw [if_neg h34] at h
                by_cases h91 : current s = 91
                · rw [if_pos h91] at h
                  exact parse_ipv6_lexInv fuel yv _ s r h hinv
                · rw [if_neg h91] at h
                  by_cases hd : 48 ≤ current s ∧ current s ≤ 57
                  · rw [if_pos hd] at h
                    exact parse_number_lexInv fuel yv _ s r h hinv
                  · rw [if_neg hd] at h
                    by_cases hk : 97 ≤ current s ∧ current s ≤ 122
                    · rw [if_pos hk] at h
                      exact parse_keyword_lexInv fuel yv _ s r h hinv
                    · rw [if_neg hk] at h
                      obtain rfl := Option.some.inj h
                      exact hinv
    · rw [if_neg hgt] at h
      obtain rfl := Option.some.inj h
      exact hinv

/-- Claim C7: the window invariant `start ≤ start + tok_len ≤ end ≤ capacity`
holds after construction and is preserved by `advance`, by `next` (lookahead or
committing), by `consume`, and by every complete token pull. -/
theorem claim_C7 :
    (∀ bytes e, lexInv (fastd_lex_init bytes e)) ∧
    (∀ s, lexInv s → lexInv (advance s).2) ∧
    (∀ yl s m, lexInv s → lexInv (next yl s m).2.2) ∧
    (∀ s b, lexInv s → lexInv (consume s b)) ∧
    (∀ (yv : YYSTYPE) (yl : YYLTYPE) (s : fastd_lex_t) (r : LexResult),
        fastd_lex yv yl s = some r → lexInv s → lexInv r.2.2.2) :=
  ⟨init_lexInv, advance_lexInv, next_lexInv, consume_lexInv,
    fun yv yl s r h hinv => fastd_lexF_lexInv (lexFuel s) yv yl s r h hinv⟩

/-- C7 witness: the invariant after construction on `2;`, after a `consume`,
and after a full pull on that input. -/
theorem claim_C7_witness :
    lexInv (fastd_lex_init [50, 59] false) ∧
    lexInv (consume (fastd_lex_init [50, 59] false) true) :=
  ⟨claim_C7.1 [50, 59] false,
   claim_C7.2.2.2.1 (fastd_lex_init [50, 59] false) true ⟨by decide, by decide, by decide⟩⟩

/-! ### The bracketed-IPv6 path (claim C2) -/


theorem range_map_getD_eq (n : Nat) (f : Nat → Nat) (i : Nat) (h : i < n) :
    ((List.range n).map f).getD i 0 = f i := by
  rw [List.getD_eq_getElem?_getD]
  simp [List.getElem?_map, List.getElem?_range, h]

theorem windowBytes_buffer (s : fastd_lex_t) (w : List Nat) (hw : windowBytes s = w)
    (i : Nat) (hi : i < w.length) :
    s.buffer (s.start + s.tok_len + i) = w.getD i 0 := by
  have hlen : s.end_ - (s.start + s.tok_len) = w.length := by
    have := congrArg List.length hw
    simpa [windowBytes] using this
  have h2 := congrArg (fun l => l.getD i 0) hw
  dsimp only at h2
  rw [windowBytes] at h2
  rw [range_map_getD_eq _ _ i (by omega)] at h2
  exact h2

theorem takeWhile_append_stop (p : Nat → Bool) (l t : List Nat) (c : Nat)
    (hl : ∀ b ∈ l, p b = true) (hc : p c = false) :
    (l ++ c :: t).takeWhile p = l := by
  induction l with
  | nil =>
    simp only [List.nil_append]
    rw [List.takeWhile_cons_of_neg (by rw [hc]; exact Bool.false_ne_true)]
  | cons a l' ih =>
    simp only [List.cons_append]
    rw [List.takeWhile_cons_of_pos (hl a (by simp))]
    rw [ih (fun b hb => hl b (by simp [hb]))]

theorem takeWhile_range_map (l : List Nat) : ∀ (n : Nat) (f : Nat → Nat),
    l.length < n → (∀ k, k < l.length → f k = l.getD k 0) → (∀ b ∈ l, b ≠ 0) →
    f l.length = 0 →
    (((List.range n).map f).takeWhile fun b => decide (b ≠ 0)) = l := by
  induction l with
  | nil =>
    intro n f hn hval _ h0
    obtain ⟨m, rfl⟩ : ∃ m, n = m + 1 := ⟨n - 1, by omega⟩
    rw [List.range_succ_eq_map, List.map_cons]
    simp only [List.length_nil] at h0
    rw [List.takeWhile_cons_of_neg (by simp [h0])]
  | cons a l' ih =>
    intro n f hn hval hnz h0
    obtain ⟨m, rfl⟩ : ∃ m, n = m + 1 := ⟨n - 1, by simp at hn; omega⟩
    rw [List.range_succ_eq_map, List.map_cons, List.map_map]
    have ha : f 0 = a := by
      have := hval 0 (by simp)
      simpa using this
    rw [ha]
    rw [List.takeWhile_cons_of_pos (by simp; exact hnz a (by simp))]
    have htl : (((List.range m).map (f ∘ Nat.succ)).takeWhile fun b => decide (b ≠ 0)) = l' := by
      refine ih m (f ∘ Nat.succ) (by simp at hn; omega) ?_ (fun b hb => hnz b (by simp [hb])) ?_
      · intro k hk
        have := hval (k + 1) (by simp; omega)
        simpa using this
      · have h1 : (a :: l').length = l'.length + 1 := by simp
        rw [Function.comp_apply, Nat.succ_eq_add_one]
        rw [← h1]
        exact h0
    rw [htl]

theorem parse_ipv6_go (fuel : Nat) (yv : YYSTYPE) (yl : YYLTYPE) (s : fastd_lex_t)
    (inner : List Nat) (hF : Fresh s) (hns : s.needspace = false) (ht : s.tok_len = 0)
    (hw : windowBytes s = 91 :: (inner ++ [93]))
    (hcls : ∀ b ∈ inner, (48 ≤ b ∧ b ≤ 57) ∨ b = 58)
    (hfuel : inner.length + 2 ≤ fuel) :
    (match inet_pton6 inner with
     | some a => ∃ yl' s', parse_ipv6_address fuel yv yl s =
         some (TOK_ADDR6, { yv with addr6 := a }, yl', s')
     | none => ∃ yl' s', parse_ipv6_address fuel yv yl s =
         some (-1, { yv with error := "invalid address" }, yl', s')) := by
  obtain ⟨hs0, hcap, hdone⟩ := hF
  have hC : CAPACITY = 1024 := rfl
  have hwl2 : s.end_ - (s.start + s.tok_len) = inner.length + 2 := by
    have hl := congrArg List.length hw
    simp only [windowBytes, List.length_map, List.length_range, List.length_cons,
      List.length_append, List.length_singleton, List.length_nil] at hl
    omega
  obtain ⟨yl2, hscan⟩ := scan6_run (91 :: (inner ++ [93])) fuel yl s ⟨hs0, hcap, hdone⟩ hw
    (List.cons_ne_nil _ _)
    (by simp only [List.length_cons, List.length_append, List.length_singleton,
      List.length_nil]; omega)
  have htw : (((91 :: (inner ++ [93]) : List Nat)).drop 1).takeWhile (fun c =>
      decide ((48 ≤ c ∧ c ≤ 57) ∨ c = 58)) = inner := by
    simp only [List.drop_succ_cons, List.drop_zero]
    exact takeWhile_append_stop _ inner [] 93
      (fun b hb => by simpa using hcls b hb) (by decide)
  rw [htw] at hscan
  have hbuf : ∀ i, i < inner.length + 2 →
      s.buffer (s.start + s.tok_len + i) = (91 :: (inner ++ [93])).getD i 0 := by
    intro i hi
    refine windowBytes_buffer s _ hw i ?_
    simp only [List.length_cons, List.length_append, List.length_singleton, List.length_nil]
    omega
  have hcur93 : current { s with tok_len := s.tok_len + 1 + inner.length } = 93 := by
    rw [current]
    dsimp only
    rw [show s.start + (s.tok_len + 1 + inner.length) =
      s.start + s.tok_len + (1 + inner.length) by omega]
    rw [hbuf (1 + inner.length) (by omega)]
    rw [show 1 + inner.length = inner.length + 1 by omega]
    rw [List.getD_cons_succ]
    rw [List.getD_append_right _ _ _ _ (Nat.le_refl _)]
    simp
  have hread : readCString
      (fun i => if i = s.start + (s.tok_len + 1 + inner.length) then 0 else s.buffer i)
      (s.start + 1) = inner := by
    rw [readCString]
    refine takeWhile_range_map inner CAPACITY _ (by omega) ?_ ?_ ?_
    · intro k hk
      rw [if_neg (by omega)]
      rw [show s.start + 1 + k = s.start + s.tok_len + (1 + k) by omega]
      rw [hbuf (1 + k) (by omega)]
      rw [show 1 + k = k + 1 by omega]
      rw [List.getD_cons_succ]
      exact List.getD_append _ _ _ _ hk
    · intro b hb
      rcases hcls b hb with h | h
      · omega
      · omega
    · rw [if_pos (by omega)]
  rw [parse_ipv6_address]
  rw [if_neg (by simp [hns])]
  rw [hscan]
  dsimp only
  rw [if_pos hcur93]
  rw [hread]
  rcases hp : inet_pton6 inner with _ | a <;> dsimp only
  · exact ⟨_, _, rfl⟩
  · exact ⟨_, _, rfl⟩

set_option maxRecDepth 100000 in
/-- C2 counterexample: `::a` is a valid IPv6 literal (it decodes to
`..00:000a`), but the scanner's lookahead admits only decimal digits and `:`,
so it stops at the `a` before reaching the `]`; lexing `[::a]` therefore
reports `invalid address` even though the bracketed text is valid IPv6. -/
theorem claim_C2_counterexample :
    inet_pton6 [58, 58, 97] = some [0, 0, 0, 0, 0, 0, 0, 0, 0, 0, 0, 0, 0, 0, 0, 10] ∧
    ((lexOnce [91, 58, 58, 97, 93]).map fun r => (r.1, r.2.1.error)) =
      some (-1, "invalid address") :=
  ⟨by decide, by decide⟩

set_option maxRecDepth 100000 in
/-- C2 (amended): for bracketed texts made only of decimal digits and `:` (the
character class the scanner actually admits — not all of hex), the pull decodes
the inner text with the standard IPv6 conversion, giving ADDR6 with the 16-byte
encoding on success and `invalid address` on conversion failure; `[::1]` gives
the loopback bytes, and `[::g]` fails.  Texts needing hex letters never reach
the conversion (see the counterexample). -/
theorem claim_C2 :
    (∀ inner : List Nat, (∀ b ∈ inner, (48 ≤ b ∧ b ≤ 57) ∨ b = 58) →
      inner.length + 2 ≤ 1024 →
      match inet_pton6 inner with
      | some a => ((lexOnce (91 :: (inner ++ [93]))).map fun r => (r.1, r.2.1.addr6)) =
          some (TOK_ADDR6, a)
      | none => ((lexOnce (91 :: (inner ++ [93]))).map fun r => (r.1, r.2.1.error)) =
          some (-1, "invalid address")) ∧
    ((lexOnce [91, 58, 58, 49, 93]).map fun r => (r.1, r.2.1.addr6)) =
      some (TOK_ADDR6, [0, 0, 0, 0, 0, 0, 0, 0, 0, 0, 0, 0, 0, 0, 0, 1]) ∧
    ((lexOnce [91, 58, 58, 103, 93]).map fun r => (r.1, r.2.1.error)) =
      some (-1, "invalid address") := by
  refine ⟨?_, by decide, by decide⟩
  intro inner hcls hlen
  have hC : CAPACITY = 1024 := rfl
  obtain ⟨hf, hferr0, hns0, hs, he, ht, hb⟩ := fastd_lex_init_spec (91 :: (inner ++ [93])) false
  have hF := init_Fresh (91 :: (inner ++ [93])) false
  have h40 := init_P4 (91 :: (inner ++ [93])) false
  have hrest := rest_init (91 :: (inner ++ [93])) false
  obtain ⟨hlt, hcur⟩ := rest_head _ 91 (inner ++ [93]) h40 hrest
  have hblen : (91 :: (inner ++ [93])).length = inner.length + 2 := by
    simp only [List.length_cons, List.length_append, List.length_singleton, List.length_nil]
  have hmeq : min CAPACITY (91 :: (inner ++ [93])).length = (91 :: (inner ++ [93])).length := by
    omega
  have hwin : windowBytes (fastd_lex_init (91 :: (inner ++ [93])) false) =
      91 :: (inner ++ [93]) := by
    rw [windowBytes_init, hmeq, List.take_length]
  have hdisp := fastd_lex_dispatch_ipv6 yv0 yl0 (fastd_lex_init (91 :: (inner ++ [93])) false)
    (by omega) hcur
  have hfuel : inner.length + 2 ≤ lexFuel (fastd_lex_init (91 :: (inner ++ [93])) false) - 1 := by
    simp only [lexFuel]
    omega
  have hgo := parse_ipv6_go (lexFuel (fastd_lex_init (91 :: (inner ++ [93])) false) - 1) yv0
    { yl0 with first_line := yl0.last_line, first_column := yl0.last_column + 1 }
    (fastd_lex_init (91 :: (inner ++ [93])) false) inner hF hns0 ht hwin hcls hfuel
  rcases hp : inet_pton6 inner with _ | a
  · rw [hp] at hgo
    dsimp only at hgo
    obtain ⟨yl', s', heq⟩ := hgo
    dsimp only
    simp only [lexOnce]
    rw [hdisp, heq]
    rfl
  · rw [hp] at hgo
    dsimp only at hgo
    obtain ⟨yl', s', heq⟩ := hgo
    dsimp only
    simp only [lexOnce]
    rw [hdisp, heq]
    rfl

set_option maxRecDepth 100000 in
/-- C2 witness: the universal conjunct instantiated at the inner text `::`,
the all-zeros address. -/
theorem claim_C2_witness :
    ((lexOnce [91, 58, 58, 93]).map fun r => (r.1, r.2.1.addr6)) =
      some (TOK_ADDR6, [0, 0, 0, 0, 0, 0, 0, 0, 0, 0, 0, 0, 0, 0, 0, 0]) := by
  have h := claim_C2.1 [58, 58] (by decide) (by decide)
  rw [(by decide : inet_pton6 [58, 58] =
    some [0, 0, 0, 0, 0, 0, 0, 0, 0, 0, 0, 0, 0, 0, 0, 0])] at h
  dsimp only at h
  exact h
